import Mathlib

/-!
Verification of the datefixer date-candidate engine.

Shallow embedding of the Python sources under src/datefixer/:
utils.py (parse_date, EXPLICIT_FORMATS), date_mapper.py
(system_tag_to_datetime, candidates_for_file, gather_candidates,
apply_destinations, interactive_choose), exif_setter.py (set_exif_tags),
search.py (the comparison mini-language) and set_dates.py (selection
policy).

Python strings are modelled as lists of characters.  The CPython
strptime/strftime machinery used by parse_date is embedded directly:
each explicit format is a list of directives and the regex-based
matcher of CPython _strptime is given as a deterministic parser.  The
determinisation is exact for the formats appearing in the source
because in every one of them a digit-consuming directive is never
followed by a token that can consume a digit, so the maximal-munch
reading coincides with the backtracking regex reading.  External
collaborators (dateutil fuzzy parsing, float parsing,
datetime.fromtimestamp for filesystem timestamps) are passed in as
explicit function parameters.
-/

namespace Datefixer

/-- Python strings, modelled as lists of characters. -/
abbrev PyStr := List Char

/-- Convert a Lean string literal to the model representation. -/
def pystr (s : String) : PyStr := s.toList

/-- The model of a Python datetime value: Gregorian fields plus an
optional UTC offset in microseconds (absent for naive datetimes). -/
structure DateTime where
  year : Nat
  month : Nat
  day : Nat
  hour : Nat
  minute : Nat
  second : Nat
  usec : Nat
  tz : Option Int
  deriving DecidableEq, Repr, Inhabited

/-- Decimal digit test, as in the regex class \d restricted to ASCII
(CPython strptime patterns operate on ASCII digits for these fields). -/
def isDig (c : Char) : Bool := 48 ≤ c.toNat && c.toNat ≤ 57

/-- Numeric value of one decimal digit character. -/
def digitVal (c : Char) : Nat := c.toNat - '0'.toNat

/-- Value of a digit string, most significant first. -/
def natOfDigits (ds : List Char) : Nat :=
  ds.foldl (fun a c => a * 10 + digitVal c) 0

/-- Character of one decimal digit value. -/
def digitChar (n : Nat) : Char := Char.ofNat ('0'.toNat + n % 10)

/-- Zero-padded decimal rendering with width w (w digits for values
below 10 to the w). -/
def padNum : Nat → Nat → List Char
  | 0, _ => []
  | w + 1, n => padNum w (n / 10) ++ [digitChar n]

/-- Whitespace test used for str.strip and the regex class \s. -/
def wsC (c : Char) : Bool := c = ' ' || c = '\t' || c = '\n' || c = '\r' || c = '\x0c' || c = '\x0b'

/-- ASCII lower casing, as used for case-insensitive regex matching of
the ASCII literals appearing in the date formats. -/
def lowerC (c : Char) : Char :=
  if 'A' ≤ c ∧ c ≤ 'Z' then Char.ofNat (c.toNat + 32) else c

/-- ASCII lower casing of a whole string (str.lower on ASCII data). -/
def lowerS (s : PyStr) : PyStr := s.map lowerC

/-- Case-insensitive single-character match (re.IGNORECASE on ASCII). -/
def charMatch (fc sc : Char) : Bool := lowerC fc = lowerC sc

/-- str.strip: drop leading and trailing whitespace. -/
def stripList (s : PyStr) : PyStr :=
  ((s.dropWhile wsC).reverse.dropWhile wsC).reverse

/-- str.replace of every comma by a space, as done by parse_date. -/
def replaceComma (s : PyStr) : PyStr :=
  s.map (fun c => if c = ',' then ' ' else c)

/-! ## The strptime directive machinery (CPython _strptime model) -/

/-- One strptime directive: the numeric fields, fractional seconds,
UTC offset, a run of whitespace, or a literal character. -/
inductive Dir
  | year4 | mon2 | day2 | hour2 | min2 | sec2 | frac6 | tzdir
  | ws
  | lit (c : Char)
  deriving DecidableEq, Repr

/-- Parse a bounded one-or-two digit field.  CPython compiles these
fields to regex alternations such as (1[0-2]|0[1-9]|[1-9]); because in
every format of the source a numeric directive is followed by a token
that cannot consume a digit, the backtracking regex semantics agrees
with this deterministic maximal-munch reading: take the whole run of
digits, require it to have length one or two, and check the range. -/
def parseNum2 (minv maxv : Nat) (s : PyStr) : Option (Nat × PyStr) :=
  match s.takeWhile isDig with
  | [c] =>
      if minv ≤ digitVal c then some (digitVal c, s.dropWhile isDig) else none
  | [c1, c2] =>
      if minv ≤ 10 * digitVal c1 + digitVal c2 ∧
         10 * digitVal c1 + digitVal c2 ≤ maxv then
        some (10 * digitVal c1 + digitVal c2, s.dropWhile isDig)
      else none
  | _ => none

/-- Parse %Y: exactly four digits (regex \d\d\d\d). -/
def parseYear4 (s : PyStr) : Option (Nat × PyStr) :=
  match s with
  | c1 :: c2 :: c3 :: c4 :: r =>
      if isDig c1 && isDig c2 && isDig c3 && isDig c4 then
        some (natOfDigits [c1, c2, c3, c4], r)
      else none
  | _ => none

/-- Parse %f: one to six digits, right-padded to microseconds
(regex \d{1,6}; the fraction semantics pads on the right). -/
def parseFrac (s : PyStr) : Option (Nat × PyStr) :=
  if 1 ≤ (s.takeWhile isDig).length ∧ (s.takeWhile isDig).length ≤ 6 then
    some (natOfDigits (s.takeWhile isDig) * 10 ^ (6 - (s.takeWhile isDig).length),
          s.dropWhile isDig)
  else none

/-- Parse exactly two digits. -/
def parseTwoDig (s : PyStr) : Option (Nat × PyStr) :=
  match s with
  | c1 :: c2 :: r =>
      if isDig c1 && isDig c2 then some (10 * digitVal c1 + digitVal c2, r)
      else none
  | _ => none

/-- The seconds-and-fraction core of the optional %z tail:
\d\d(\.\d{1,6})? in microseconds. -/
def parseTzSecCore (u : PyStr) : Option (Nat × PyStr) :=
  (parseTwoDig u).bind (fun q =>
    if q.2.head? = some '.' then
      match parseFrac q.2.tail with
      | some p2 => some (q.1 * 1000000 + p2.1, p2.2)
      | none => some (q.1 * 1000000, q.2)
    else some (q.1 * 1000000, q.2))

/-- The optional seconds-and-fraction tail of a %z offset:
(:?\d\d(\.\d{1,6})?)? of the CPython pattern.  Returns the extra
offset contribution in microseconds and the rest of the input. -/
def parseTzSecFrac (s : PyStr) : Nat × PyStr :=
  if s.head? = some ':' then
    match parseTzSecCore s.tail with
    | some p => p
    | none => (0, s)
  else
    match parseTzSecCore s with
    | some p => p
    | none => (0, s)

/-- Build the final %z result: range-check the offset, apply the sign
(the timezone constructor rejects offsets of a full day or more). -/
def parseTzFinish (c : Char) (hh mm : Nat) (p : Nat × PyStr) :
    Option (Int × PyStr) :=
  if (hh * 3600 + mm * 60) * 1000000 + p.1 < 86400000000 then
    some (if c = '-' then
            -((((hh * 3600 + mm * 60) * 1000000 + p.1 : Nat)) : Int)
          else (((hh * 3600 + mm * 60) * 1000000 + p.1 : Nat) : Int),
          p.2)
  else none

/-- The part of %z after the sign and the hour pair: optional colon,
minute pair, optional seconds and fraction. -/
def parseTzAfterHH (c : Char) (hh : Nat) (r1 : PyStr) :
    Option (Int × PyStr) :=
  (parseTwoDig (if r1.head? = some ':' ∧ (parseTwoDig r1.tail).isSome
                then r1.tail else r1)).bind
    (fun q => parseTzFinish c hh q.1 (parseTzSecFrac q.2))

/-- Parse %z.  CPython pattern [+-]\d\d:?\d\d(:?\d\d(\.\d{1,6})?)? or a
literal Z (uppercase only, the pattern sets (?-i:Z)); the resulting
offset is validated to lie strictly within one day, as the timezone
constructor does.  Result: total signed offset in microseconds. -/
def parseTz (s : PyStr) : Option (Int × PyStr) :=
  match s with
  | [] => none
  | c :: r0 =>
      if c = 'Z' then some (0, r0)
      else if c = '+' ∨ c = '-' then
        (parseTwoDig r0).bind (fun q => parseTzAfterHH c q.1 q.2)
      else none

/-- Default field values of strptime (year 1900, month 1, day 1,
midnight, naive). -/
def initDT : DateTime :=
  { year := 1900, month := 1, day := 1, hour := 0, minute := 0,
    second := 0, usec := 0, tz := none }

/-- Run one directive on the input, updating the accumulated fields. -/
def parseDir (d : Dir) (s : PyStr) (acc : DateTime) : Option (DateTime × PyStr) :=
  match d with
  | .year4 => (parseYear4 s).map (fun p => ({ acc with year := p.1 }, p.2))
  | .mon2 => (parseNum2 1 12 s).map (fun p => ({ acc with month := p.1 }, p.2))
  | .day2 => (parseNum2 1 31 s).map (fun p => ({ acc with day := p.1 }, p.2))
  | .hour2 => (parseNum2 0 23 s).map (fun p => ({ acc with hour := p.1 }, p.2))
  | .min2 => (parseNum2 0 59 s).map (fun p => ({ acc with minute := p.1 }, p.2))
  | .sec2 => (parseNum2 0 61 s).map (fun p => ({ acc with second := p.1 }, p.2))
  | .frac6 => (parseFrac s).map (fun p => ({ acc with usec := p.1 }, p.2))
  | .tzdir => (parseTz s).map (fun p => ({ acc with tz := some p.1 }, p.2))
  | .ws =>
      match s with
      | c :: r => if wsC c then some (acc, r.dropWhile wsC) else none
      | [] => none
  | .lit c =>
      match s with
      | x :: r => if charMatch c x then some (acc, r) else none
      | [] => none

/-- Run a directive list left to right. -/
def parseDirs : List Dir → PyStr → DateTime → Option (DateTime × PyStr)
  | [], s, acc => some (acc, s)
  | d :: ds, s, acc =>
      match parseDir d s acc with
      | some (acc1, r) => parseDirs ds r acc1
      | none => none

/-- Leap year rule of the Gregorian calendar. -/
def isLeap (y : Nat) : Bool := y % 4 = 0 && (y % 100 ≠ 0 || y % 400 = 0)

/-- Length of a month. -/
def daysInMonth (y m : Nat) : Nat :=
  if m = 2 then (if isLeap y then 29 else 28)
  else if m = 4 ∨ m = 6 ∨ m = 9 ∨ m = 11 then 30
  else 31

/-- The validation performed by the datetime constructor, which
strptime invokes on the collected fields (a failure there surfaces as
a ValueError and makes the format fail). -/
def validDT (dt : DateTime) : Bool :=
  1 ≤ dt.year && dt.year ≤ 9999 &&
  1 ≤ dt.month && dt.month ≤ 12 &&
  1 ≤ dt.day && dt.day ≤ daysInMonth dt.year dt.month &&
  dt.hour ≤ 23 && dt.minute ≤ 59 && dt.second ≤ 59 && dt.usec ≤ 999999

/-- datetime.strptime: full match of the directive list against the
whole input, then constructor validation. -/
def strptime (fmt : List Dir) (s : PyStr) : Option DateTime :=
  match parseDirs fmt s initDT with
  | some (dt, []) => if validDT dt then some dt else none
  | _ => none

/-- The seconds-and-fraction part of a rendered %z offset: present
only when nonzero, the fraction only when nonzero. -/
def printTzTail (ss us : Nat) : PyStr :=
  if ss = 0 ∧ us = 0 then []
  else padNum 2 ss ++ (if us = 0 then [] else '.' :: padNum 6 us)

/-- Rendering of one %z offset by datetime.strftime: sign, HHMM, then
seconds only when nonzero, then the fraction only when nonzero. -/
def printTz (o : Int) : PyStr :=
  (if o < 0 then '-' else '+') ::
    (padNum 2 (o.natAbs / 1000000 / 3600) ++
     (padNum 2 (o.natAbs / 1000000 % 3600 / 60) ++
      printTzTail (o.natAbs / 1000000 % 60) (o.natAbs % 1000000)))

/-- Rendering of one directive by datetime.strftime (zero-padded
numeric fields as documented; %z renders to nothing on a naive
value). -/
def printDir (dt : DateTime) : Dir → PyStr
  | .year4 => padNum 4 dt.year
  | .mon2 => padNum 2 dt.month
  | .day2 => padNum 2 dt.day
  | .hour2 => padNum 2 dt.hour
  | .min2 => padNum 2 dt.minute
  | .sec2 => padNum 2 dt.second
  | .frac6 => padNum 6 dt.usec
  | .tzdir => match dt.tz with
              | none => []
              | some o => printTz o
  | .ws => [' ']
  | .lit c => [c]

/-- datetime.strftime over a directive list. -/
def strftime (fmt : List Dir) (dt : DateTime) : PyStr :=
  (fmt.map (printDir dt)).flatten

/-- "%Y:%m:%d" -/
def fmtA : List Dir := [.year4, .lit ':', .mon2, .lit ':', .day2]
/-- "%Y:%m:%d %H:%M:%S" -/
def fmtB : List Dir :=
  fmtA ++ [.ws, .hour2, .lit ':', .min2, .lit ':', .sec2]
/-- "%Y:%m:%d %H:%M:%S.%f" -/
def fmtC : List Dir := fmtB ++ [.lit '.', .frac6]
/-- "%Y-%m-%d" head shared by the dash formats -/
def fmtDashDate : List Dir := [.year4, .lit '-', .mon2, .lit '-', .day2]
/-- "%Y-%m-%d %H:%M:%S" -/
def fmtD : List Dir :=
  fmtDashDate ++ [.ws, .hour2, .lit ':', .min2, .lit ':', .sec2]
/-- "%Y-%m-%d %H:%M:%S.%f" -/
def fmtE : List Dir := fmtD ++ [.lit '.', .frac6]
/-- "%Y-%m-%dT%H:%M:%S" -/
def fmtF : List Dir :=
  fmtDashDate ++ [.lit 'T', .hour2, .lit ':', .min2, .lit ':', .sec2]
/-- "%Y-%m-%dT%H:%M:%S.%f" -/
def fmtG : List Dir := fmtF ++ [.lit '.', .frac6]
/-- "%Y-%m-%dT%H:%M:%S%z" -/
def fmtH : List Dir := fmtF ++ [.tzdir]
/-- "%Y-%m-%dT%H:%M:%S.%f%z" -/
def fmtI : List Dir := fmtG ++ [.tzdir]
/-- "%Y:%m:%d %H:%M:%S%z" -/
def fmtJ : List Dir := fmtB ++ [.tzdir]
/-- "%Y:%m:%d %H:%M:%S.%f%z" -/
def fmtK : List Dir := fmtC ++ [.tzdir]

/-- EXPLICIT_FORMATS of utils.py, in source order. -/
def EXPLICIT_FORMATS : List (List Dir) :=
  [fmtA, fmtB, fmtC, fmtD, fmtE, fmtF, fmtG, fmtH, fmtI, fmtJ, fmtK]

/-! ## parse_date of utils.py -/

/-- A Python value reaching parse_date: a string, or any non-string
value (None, numbers, lists, ...), which parse_date rejects before
touching it. -/
inductive PyVal
  | str (s : PyStr)
  | nonstr
  deriving DecidableEq

/-- re.fullmatch of \d{1,6}: a purely numeric string of one to six
digits (treated as a fractional-second fragment). -/
def isSmallNumeric (s : PyStr) : Bool :=
  1 ≤ s.length && s.length ≤ 6 && s.all isDig

/-- The explicit-format loop of parse_date: first matching format
wins. -/
def firstFormatParse (s : PyStr) : Option DateTime :=
  EXPLICIT_FORMATS.findSome? (fun f => strptime f s)

/-- The fixed leading group of the EXIF heuristic regex of parse_date:
\d{4}:\d{2}:\d{2} \d{2}:\d{2}:\d{2} anchored at the start. -/
def exifHeurHead (s : PyStr) : Option (PyStr × PyStr) :=
  match s with
  | y1 :: y2 :: y3 :: y4 :: ':' :: m1 :: m2 :: ':' :: d1 :: d2 :: ' ' ::
    h1 :: h2 :: ':' :: n1 :: n2 :: ':' :: s1 :: s2 :: r =>
      if [y1, y2, y3, y4, m1, m2, d1, d2, h1, h2, n1, n2, s1, s2].all isDig then
        some ([y1, y2, y3, y4, ':', m1, m2, ':', d1, d2, ' ',
               h1, h2, ':', n1, n2, ':', s1, s2], r)
      else none
  | _ => none

/-- The EXIF heuristic of parse_date: re.match of
(\d{4}:\d{2}:\d{2} \d{2}:\d{2}:\d{2})(\.?\d+)?(.*)$ and reassembly of
the three groups.  The dot of group three does not cross a newline and
the dollar tolerates one final newline, so a remainder holding a
newline anywhere else defeats the match. -/
def exifHeuristic (s : PyStr) : Option PyStr :=
  match exifHeurHead s with
  | none => none
  | some (g1, r1) =>
      let p2 : PyStr × PyStr :=
        match r1 with
        | '.' :: rt =>
            let ds := rt.takeWhile isDig
            if ds.isEmpty then ([], r1) else ('.' :: ds, rt.dropWhile isDig)
        | _ =>
            let ds := r1.takeWhile isDig
            if ds.isEmpty then ([], r1) else (ds, r1.dropWhile isDig)
      let g2 := p2.1
      let r2 := p2.2
      if r2.contains '\n' then
        if r2.getLast? = some '\n' ∧ ¬ r2.dropLast.contains '\n' then
          some (g1 ++ g2 ++ r2.dropLast)
        else none
      else some (g1 ++ g2 ++ r2)

/-- parse_date of utils.py.  The dateutil fuzzy parser is an external
collaborator and is passed in as the function parameter fuzzy, with
none standing for a raised parse error. -/
def parse_date (fuzzy : PyStr → Option DateTime) (v : PyVal) : Option DateTime :=
  match v with
  | .nonstr => none
  | .str s0 =>
      if s0 = [] then none
      else
        let s := stripList s0
        if isSmallNumeric s then none
        else
          let s2 := replaceComma s
          match firstFormatParse s2 with
          | some dt => some dt
          | none =>
              match exifHeuristic s2 with
              | some cand =>
                  match fuzzy cand with
                  | some dt => some dt
                  | none => fuzzy s2
              | none => fuzzy s2

/-! ## date_mapper.py: filesystem tags and candidate collection -/

/-- A Python exception surfacing from the embedded code. -/
inductive PyErr
  | attributeError
  | runtimeError (msg : PyStr)
  | valueError
  deriving DecidableEq

/-- The relevant parts of an os.stat result: timestamps as opaque
ticks, with the birth time absent on platforms that do not expose
st_birthtime. -/
structure StatResult where
  atime : Int
  mtime : Int
  ctime : Int
  birthtime : Option Int
  deriving DecidableEq

/-- A file as seen by the collector: its basename, its stat result and
the metadata mapping returned for it by exiftool.read_all_tags (an
empty list when the reader fails, which never raises). -/
structure FileCtx where
  name : PyStr
  stat : StatResult
  tags : List (PyStr × PyVal)

/-- ALL_FS_TAGS of date_mapper.py.  The source keeps these in a Python
set; membership tests are order-independent and the iteration order of
the wildcard branch is modelled by the textual order of the source. -/
def ALL_FS_TAGS : List PyStr :=
  [pystr "File:System:FileAccessDate",
   pystr "File:System:FileModifyDate",
   pystr "File:System:FileInodeChangeDate",
   pystr "File:System:CreatedDate"]

/-- system_tag_to_datetime of date_mapper.py.  fromts models
datetime.fromtimestamp.  Accessing st.st_birthtime on a platform
without birth times raises AttributeError. -/
def system_tag_to_datetime (fromts : Int → DateTime) (st : StatResult)
    (tag : PyStr) : Except PyErr (Option DateTime) :=
  if tag = pystr "File:System:FileAccessDate" then
    .ok (some (fromts st.atime))
  else if tag = pystr "File:System:FileModifyDate" then
    .ok (some (fromts st.mtime))
  else if tag = pystr "File:System:FileInodeChangeDate" then
    .ok (some (fromts st.ctime))
  else if tag = pystr "File:System:CreatedDate" then
    match st.birthtime with
    | some b => .ok (some (fromts b))
    | none => .error .attributeError
  else .ok none

/-- Dictionary lookup in the metadata mapping (first binding wins). -/
def lookupTag (tags : List (PyStr × PyVal)) (k : PyStr) : Option PyVal :=
  (tags.find? (fun p => p.1 = k)).map (fun p => p.2)

/-- The wildcard selectors recognised by candidates_for_file. -/
def WILD : List PyStr := [pystr "*", pystr "ALL"]

/-- Candidates contributed by one selector in the non-wildcard branch
of candidates_for_file. -/
def candTag (fuzzy : PyStr → Option DateTime) (fromts : Int → DateTime)
    (ctx : FileCtx) (pfx : PyStr) (tag : PyStr) :
    Except PyErr (List (PyStr × DateTime)) :=
  if tag ∈ ALL_FS_TAGS then
    (system_tag_to_datetime fromts ctx.stat tag).map
      (fun o => match o with
                | some dt => [(pfx ++ tag, dt)]
                | none => [])
  else
    match lookupTag ctx.tags tag with
    | some v =>
        .ok (match parse_date fuzzy v with
             | some dt => [(pfx ++ tag, dt)]
             | none => [])
    | none => .ok []

/-- The selector loop of the non-wildcard branch. -/
def candsSelected (fuzzy : PyStr → Option DateTime) (fromts : Int → DateTime)
    (ctx : FileCtx) (pfx : PyStr) (tags : List PyStr) :
    Except PyErr (List (PyStr × DateTime)) :=
  tags.foldlM (fun acc tag => do
    let c ← candTag fuzzy fromts ctx pfx tag
    pure (acc ++ c)) []

/-- The wildcard branch of candidates_for_file: every metadata key
followed by every filesystem tag. -/
def candsAll (fuzzy : PyStr → Option DateTime) (fromts : Int → DateTime)
    (ctx : FileCtx) (pfx : PyStr) : Except PyErr (List (PyStr × DateTime)) := do
  let exifCands := ctx.tags.filterMap (fun p =>
    match p.2 with
    | .str s => (parse_date fuzzy (.str s)).map (fun dt => (pfx ++ p.1, dt))
    | .nonstr => none)
  let fsCands ← ALL_FS_TAGS.foldlM (fun acc tag => do
    match ← system_tag_to_datetime fromts ctx.stat tag with
    | some dt => pure (acc ++ [(pfx ++ tag, dt)])
    | none => pure acc) ([] : List (PyStr × DateTime))
  pure (exifCands ++ fsCands)

/-- candidates_for_file of date_mapper.py. -/
def candidates_for_file (fuzzy : PyStr → Option DateTime)
    (fromts : Int → DateTime) (ctx : FileCtx) (tags : List PyStr)
    (pfx : PyStr) : Except PyErr (List (PyStr × DateTime)) :=
  if tags.length = 0 then .ok []
  else if tags.headI ∈ WILD then candsAll fuzzy fromts ctx pfx
  else candsSelected fuzzy fromts ctx pfx tags

/-- gather_candidates of date_mapper.py.  The backup matches are given
as pairs of the relative path (as interpolated into the provenance
label) and the matched file itself; the source passes the original
path, not the matched file, to the extraction call, and this embedding
mirrors that faithfully (the second component of each match is
unused). -/
def gather_candidates (fuzzy : PyStr → Option DateTime)
    (fromts : Int → DateTime) (ctx : FileCtx) (src_tags : List PyStr)
    (backups : Option (List (PyStr × FileCtx)))
    (backups_tags : Option (List PyStr)) :
    Except PyErr (List (PyStr × DateTime)) := do
  let main ← candidates_for_file fuzzy fromts ctx src_tags
    (ctx.name ++ pystr ": ")
  match backups with
  | none => pure main
  | some ms =>
      let btags := backups_tags.getD [pystr "*"]
      ms.foldlM (fun acc m => do
        let cs ← candidates_for_file fuzzy fromts ctx btags
          (pystr "backup: " ++ m.1 ++ pystr ": ")
        pure (acc ++ cs)) main

/-- datetime.isoformat, the serialization under which the spec states
the deduplication invariant. -/
def isoformat (dt : DateTime) : PyStr :=
  padNum 4 dt.year ++ pystr "-" ++ padNum 2 dt.month ++ pystr "-" ++
  padNum 2 dt.day ++ pystr "T" ++ padNum 2 dt.hour ++ pystr ":" ++
  padNum 2 dt.minute ++ pystr ":" ++ padNum 2 dt.second ++
  (if dt.usec = 0 then [] else pystr "." ++ padNum 6 dt.usec) ++
  (match dt.tz with
   | none => []
   | some o =>
       let a := o.natAbs
       (if o < 0 then pystr "-" else pystr "+") ++
       padNum 2 (a / 3600000000) ++ pystr ":" ++
       padNum 2 (a % 3600000000 / 60000000))

/-! ## exif_setter.py and apply_destinations -/

/-- Observable outcome of a set_exif_tags call: the lines printed, the
fact of an external execution, and the return value. -/
structure ExifSetOutcome where
  printed : List PyStr
  ran : Bool
  ret : Bool
  deriving DecidableEq

/-- Join words with single spaces (str.join of the command). -/
def joinSp : List PyStr → PyStr
  | [] => []
  | [x] => x
  | x :: xs => x ++ ' ' :: joinSp xs

/-- The exiftool command line built by set_exif_tags. -/
def buildExifCmd (tags : List (PyStr × PyStr)) (update_systime : Bool)
    (path : PyStr) : List PyStr :=
  [pystr "exiftool",
   pystr "-" ++ (if update_systime then pystr "overwrite_original"
                 else pystr "overwrite_original_in_place")] ++
  (if update_systime then [] else [pystr "-P"]) ++
  tags.map (fun p => pystr "-" ++ p.1 ++ pystr "=" ++ p.2) ++ [path]

/-- set_exif_tags of exif_setter.py.  hasTool models
shutil.which on exiftool; the availability check sits at the top of
the function, before the dry-run branch. -/
def set_exif_tags (hasTool : Bool) (path : PyStr)
    (tags : List (PyStr × PyStr)) (dry_run update_systime : Bool) :
    Except PyErr ExifSetOutcome :=
  if ¬ hasTool then .error (.runtimeError (pystr "exiftool not found on PATH"))
  else
    let cmd := buildExifCmd tags update_systime path
    if dry_run then .ok ⟨[pystr "DRY RUN: " ++ joinSp cmd], false, true⟩
    else .ok ⟨[], true, true⟩

/-- One delegation performed by apply_destinations: either a call of
set_times.apply_system_time or a call of exif_setter.set_exif_tags. -/
inductive Delegation
  | fsTime (tag : PyStr) (dt : DateTime) (dry : Bool)
  | exifWrite (tags : List (PyStr × PyStr)) (dry : Bool) (upd : Bool)
  deriving DecidableEq

/-- The per-destination dispatch of apply_destinations in
date_mapper.py. -/
def applyOneDest (d : PyStr) (dt : DateTime) (dry upd : Bool) : Delegation :=
  if d ∈ ALL_FS_TAGS then .fsTime d dt dry
  else .exifWrite [(d, strftime fmtB dt)] dry upd

/-- apply_destinations of date_mapper.py, as the list of delegations
it performs in order. -/
def apply_destinations (dests : List PyStr) (dt : DateTime)
    (dry upd : Bool) : List Delegation :=
  dests.map (fun d => applyOneDest d dt dry upd)

/-! ## search.py: the comparison mini-language -/

/-- The comparison operators of _OP_MAP; both <> and != denote
operator.ne. -/
inductive CmpOp
  | gt | lt | ge | le | eq | ne
  deriving DecidableEq

/-- Match one operator token at the head of the input, alternatives in
the order of the regex (>= before <= before <> before != before ==
before > before <), each accepted only when at least one character
remains for the right operand, as the backtracking of the anchored
regex demands. -/
def opPick (s : PyStr) : Option (CmpOp × PyStr) :=
  let try2 : Char → Char → CmpOp → Option (CmpOp × PyStr) := fun a b op =>
    match s with
    | x :: y :: r => if x = a ∧ y = b ∧ r ≠ [] then some (op, r) else none
    | _ => none
  let try1 : Char → CmpOp → Option (CmpOp × PyStr) := fun a op =>
    match s with
    | x :: r => if x = a ∧ r ≠ [] then some (op, r) else none
    | _ => none
  (try2 '>' '=' .ge).orElse fun _ =>
  (try2 '<' '=' .le).orElse fun _ =>
  (try2 '<' '>' .ne).orElse fun _ =>
  (try2 '!' '=' .ne).orElse fun _ =>
  (try2 '=' '=' .eq).orElse fun _ =>
  (try1 '>' .gt).orElse fun _ =>
  (try1 '<' .lt)

/-- Scan for the leftmost operator occurrence with a nonempty left
part, as the non-greedy left group of _CMP_RE does. -/
def scanSplit : PyStr → PyStr → Option (PyStr × CmpOp × PyStr)
  | _, [] => none
  | accRev, c :: rest =>
      match opPick rest with
      | some p => some ((c :: accRev).reverse, p.1, p.2)
      | none => scanSplit (c :: accRev) rest

/-- The _CMP_RE split of a comparison term into the two stripped
operand strings and the operator. -/
def parseCmpTerm (s : PyStr) : Option (PyStr × CmpOp × PyStr) :=
  (scanSplit [] s).map (fun t => (stripList t.1, t.2.1, stripList t.2.2))

/-- A coerced operand value: datetime, number or string.  Python float
values are modelled as exact rationals (non-finite floats are outside
the model). -/
inductive PyObj
  | dt (d : DateTime)
  | num (q : Rat)
  | pstr (s : PyStr)
  deriving DecidableEq

/-- _coerce_value of search.py: datetime first, then float, then the
trimmed string.  pyfloat models the float constructor on strings. -/
def _coerce_value (fuzzy : PyStr → Option DateTime)
    (pyfloat : PyStr → Option Rat) (s : PyStr) : PyObj :=
  match parse_date fuzzy (.str s) with
  | some d => .dt d
  | none =>
      match pyfloat s with
      | some q => .num q
      | none => .pstr (stripList s)

/-- Cumulative days before a month in a non-leap year. -/
def cumDays : Nat → Nat
  | 1 => 0 | 2 => 31 | 3 => 59 | 4 => 90 | 5 => 120 | 6 => 151
  | 7 => 181 | 8 => 212 | 9 => 243 | 10 => 273 | 11 => 304 | _ => 334

/-- Proleptic Gregorian day number (date.toordinal). -/
def toOrdinal (y m d : Nat) : Nat :=
  365 * (y - 1) + (y - 1) / 4 - (y - 1) / 100 + (y - 1) / 400 +
  cumDays m + (if 2 < m ∧ isLeap y then 1 else 0) + d

/-- Microseconds of a datetime ignoring its offset. -/
def naiveUs (dt : DateTime) : Nat :=
  ((toOrdinal dt.year dt.month dt.day * 24 + dt.hour) * 60 + dt.minute) *
    60 * 1000000 + dt.second * 1000000 + dt.usec

/-- Instant of an aware datetime in microseconds since the epoch of
day one. -/
def instantUs (dt : DateTime) : Int :=
  (naiveUs dt : Int) - (dt.tz.getD 0)

/-- Apply a comparison operator to an Ordering result. -/
def applyOrd (op : CmpOp) (o : Ordering) : Bool :=
  match op with
  | .gt => o = .gt
  | .lt => o = .lt
  | .ge => o ≠ .lt
  | .le => o ≠ .gt
  | .eq => o = .eq
  | .ne => o ≠ .eq

/-- Lexicographic by code point, as Python compares strings. -/
def strCmp : PyStr → PyStr → Ordering
  | [], [] => .eq
  | [], _ :: _ => .lt
  | _ :: _, [] => .gt
  | a :: as1, b :: bs1 => (compare a.toNat b.toNat).then (strCmp as1 bs1)

/-- Field-tuple comparison of naive datetimes. -/
def dtTupleCmp (x y : DateTime) : Ordering :=
  (compare x.year y.year).then ((compare x.month y.month).then
    ((compare x.day y.day).then ((compare x.hour y.hour).then
      ((compare x.minute y.minute).then ((compare x.second y.second).then
        (compare x.usec y.usec))))))

/-- Python comparison semantics on coerced operand values: equal-type
comparisons succeed; equality across types is False (inequality True);
order comparisons across types, or between a naive and an aware
datetime, raise TypeError (the .error case). -/
def pyCompare (op : CmpOp) (a b : PyObj) : Except Unit Bool :=
  match a, b with
  | .num x, .num y => .ok (applyOrd op (compare x y))
  | .pstr x, .pstr y => .ok (applyOrd op (strCmp x y))
  | .dt x, .dt y =>
      match x.tz, y.tz with
      | none, none => .ok (applyOrd op (dtTupleCmp x y))
      | some _, some _ => .ok (applyOrd op (compare (instantUs x) (instantUs y)))
      | _, _ =>
          match op with
          | .eq => .ok false
          | .ne => .ok true
          | _ => .error ()
  | _, _ =>
      match op with
      | .eq => .ok false
      | .ne => .ok true
      | _ => .error ()

/-- Contiguous substring test (the Python in operator on strings; the
empty needle is contained everywhere). -/
def isSubstr (n : PyStr) : PyStr → Bool
  | [] => n.isEmpty
  | c :: t => n.isPrefixOf (c :: t) || isSubstr n t

/-- _find_tag_value of search.py: first key containing the name
case-insensitively wins; a None value is returned as None exactly like
a missing key. -/
def _find_tag_value (tags : List (PyStr × Option PyStr)) (name : PyStr) :
    Option PyStr :=
  match tags.find? (fun p => isSubstr (lowerS name) (lowerS p.1)) with
  | some p => p.2
  | none => none

/-- _eval_cmp_term of search.py.  A term that the regex rejects raises
ValueError; the coerced comparison falls back, when it raises, to the
same operator on the two raw resolved strings, and that fallback is
not itself guarded. -/
def _eval_cmp_term (fuzzy : PyStr → Option DateTime)
    (pyfloat : PyStr → Option Rat) (tags : List (PyStr × Option PyStr))
    (term : PyStr) : Except PyErr Bool :=
  match parseCmpTerm term with
  | none => .error .valueError
  | some (araw, op, braw) =>
      let aVraw := (_find_tag_value tags araw).getD araw
      let bVraw := (_find_tag_value tags braw).getD braw
      match pyCompare op (_coerce_value fuzzy pyfloat aVraw)
                        (_coerce_value fuzzy pyfloat bVraw) with
      | .ok r => .ok r
      | .error _ =>
          match pyCompare op (.pstr aVraw) (.pstr bVraw) with
          | .ok r => .ok r
          | .error _ => .error .valueError

/-- The use of _eval_cmp_term inside search_files: the call sits in a
try block whose except arm turns any exception into False. -/
def evalTermForSearch (fuzzy : PyStr → Option DateTime)
    (pyfloat : PyStr → Option Rat) (tags : List (PyStr × Option PyStr))
    (term : PyStr) : Bool :=
  match _eval_cmp_term fuzzy pyfloat tags term with
  | .ok r => r
  | .error _ => false

/-! ## set_dates.py: the selection policy -/

/-- Result of interactive_choose on a finite operator script:
a returned value, a SystemExit from the quit command, or exhaustion of
the script while the loop still awaits input. -/
inductive ChooseOutcome
  | ret (d : Option DateTime)
  | sysExit
  | blocked
  deriving DecidableEq

/-- "%Y-%m-%d %H:%M:%S", the custom-entry format. -/
def CUSTOM_FMT : List Dir :=
  [.year4, .lit '-', .mon2, .lit '-', .day2, .ws,
   .hour2, .lit ':', .min2, .lit ':', .sec2]

/-- The prompt loop of interactive_choose, consuming the operator
script one answer at a time. -/
def chooseLoop (cands : List (PyStr × DateTime)) :
    Nat → List PyStr → ChooseOutcome
  | _, [] => .blocked
  | idx, ans :: rest =>
      let a := lowerS (stripList ans)
      if a = [] then .ret (some (cands.getD idx default).2)
      else if a = pystr "q" then .sysExit
      else if a = pystr "s" then .ret none
      else if a = pystr "c" then
        match rest with
        | [] => .blocked
        | custom :: rest2 =>
            match strptime CUSTOM_FMT custom with
            | some dt => .ret (some dt)
            | none => chooseLoop cands idx rest2
      else if a = pystr "n" then
        chooseLoop cands ((idx + 1) % cands.length) rest
      else if a = pystr "p" then
        chooseLoop cands ((idx + cands.length - 1) % cands.length) rest
      else if a.all isDig then
        let n := natOfDigits a
        if n < cands.length then .ret (some (cands.getD n default).2)
        else chooseLoop cands idx rest
      else chooseLoop cands idx rest

/-- interactive_choose of date_mapper.py: an empty candidate list
returns None before the loop begins. -/
def interactive_choose (cands : List (PyStr × DateTime))
    (script : List PyStr) : ChooseOutcome :=
  if cands.isEmpty then .ret none else chooseLoop cands 0 script

/-- The per-file selection decision of cmd_set_dates in set_dates.py:
the interactive branch, or the automatic acceptance of the sole
candidate (None when there is none). -/
inductive SelDecision
  | interactive
  | autoAccept (d : Option DateTime)
  deriving DecidableEq

/-- The branch condition of cmd_set_dates lines 113 to 135. -/
def selectionDecision (force : Bool) (cands : List (PyStr × DateTime)) :
    SelDecision :=
  if force || cands.length > 1 then .interactive
  else .autoAccept (cands.head?.map (fun p => p.2))

/-! ## Well-formedness of directive lists, for the round-trip proof -/

/-- Directives that consume digits. -/
def numericDir : Dir → Bool
  | .year4 | .mon2 | .day2 | .hour2 | .min2 | .sec2 | .frac6 => true
  | _ => false

/-- Directives whose printed output never starts with a digit. -/
def nonDigitStart : Dir → Bool
  | .lit c => !(isDig c)
  | .ws => true
  | .tzdir => true
  | _ => false

/-- Directives whose printed output never starts with whitespace. -/
def nonWSStart : Dir → Bool
  | .lit c => !(wsC c)
  | .ws => false
  | _ => true

/-- Adjacency discipline: a digit-consuming directive is followed by a
directive printing no leading digit, and a whitespace run by one
printing no leading whitespace. -/
def dirsOK : List Dir → Bool
  | [] => true
  | [_] => true
  | d :: d2 :: rest =>
      (if numericDir d then nonDigitStart d2
       else if d = .ws then nonWSStart d2 else true) && dirsOK (d2 :: rest)

/-- The datetime field a directive writes, when any. -/
def fieldTag : Dir → Option Nat
  | .year4 => some 0
  | .mon2 => some 1
  | .day2 => some 2
  | .hour2 => some 3
  | .min2 => some 4
  | .sec2 => some 5
  | .frac6 => some 6
  | .tzdir => some 7
  | _ => none

/-- The offset directive appears at most in the final position. -/
def tzLastOK : List Dir → Bool
  | [] => true
  | [_] => true
  | d :: ds => d ≠ .tzdir && tzLastOK ds

/-- Well-formed directive list: the adjacency discipline, no repeated
field, offset only last.  Every format of EXPLICIT_FORMATS satisfies
this. -/
def fmtOK (dirs : List Dir) : Bool :=
  dirsOK dirs && (dirs.filterMap fieldTag).Nodup && tzLastOK dirs

/-- Field bounds maintained by parsing: every value a directive can
store lies in this range, and the strptime defaults do too. -/
def RangedB (dt : DateTime) : Bool :=
  dt.year ≤ 9999 && 1 ≤ dt.month && dt.month ≤ 12 && 1 ≤ dt.day &&
  dt.day ≤ 31 && dt.hour ≤ 23 && dt.minute ≤ 59 && dt.second ≤ 61 &&
  dt.usec ≤ 999999 && dt.tz.all (fun o => o.natAbs < 86400000000)

/-- Characters a directive can consume. -/
def allowedFor : Dir → Char → Bool
  | .lit c, x => charMatch c x
  | .ws, x => wsC x
  | .tzdir, x => isDig x || x = '+' || x = '-' || x = ':' || x = '.' || x = 'Z'
  | _, x => isDig x

/-- Least number of characters a directive consumes. -/
def minConsume : Dir → Nat
  | .year4 => 4
  | _ => 1

/-- Least number of characters a directive list consumes. -/
def minLen (dirs : List Dir) : Nat := (dirs.map minConsume).sum

/-- No directive of the list can consume a comma. -/
def dirNoComma : Dir → Bool
  | .lit c => decide (lowerC c ≠ ',')
  | _ => true

/-- The directive consumes no whitespace character. -/
def dirNoWS : Dir → Bool
  | .ws => false
  | .lit c => !(wsC c)
  | _ => true

/-! ## Concrete fixtures used by witnesses and counterexamples -/

/-- A fuzzy parser that always fails (dateutil raising on everything);
the concrete scenarios below never reach it. -/
def fuzzy0 : PyStr → Option DateTime := fun _ => none

/-- A float parser that always fails. -/
def pyfloat0 : PyStr → Option Rat := fun _ => none

/-- A concrete injective-on-small-ticks model of
datetime.fromtimestamp. -/
def fromts0 : Int → DateTime := fun i =>
  { year := 2001, month := 1, day := 1, hour := 0, minute := 0,
    second := 0, usec := i.natAbs % 1000000, tz := none }

/-- The datetime parsed from "2020:01:01 00:00:00". -/
def dtC1 : DateTime :=
  { year := 2020, month := 1, day := 1, hour := 0, minute := 0,
    second := 0, usec := 0, tz := none }

/-- A file whose metadata holds the same timestamp under two keys. -/
def ctxDup : FileCtx :=
  { name := pystr "a.jpg",
    stat := { atime := 0, mtime := 0, ctime := 0, birthtime := none },
    tags := [(pystr "A", .str (pystr "2020:01:01 00:00:00")),
             (pystr "B", .str (pystr "2020:01:01 00:00:00"))] }

/-- A main file with modification tick 100 and no metadata. -/
def ctxMain : FileCtx :=
  { name := pystr "photo.jpg",
    stat := { atime := 0, mtime := 100, ctime := 0, birthtime := none },
    tags := [] }

/-- A backup copy of the main file with modification tick 200. -/
def ctxBackup : FileCtx :=
  { name := pystr "photo.jpg",
    stat := { atime := 0, mtime := 200, ctime := 0, birthtime := none },
    tags := [] }

/-- A stat result on a platform without birth times. -/
def stNoBirth : StatResult :=
  { atime := 11, mtime := 22, ctime := 33, birthtime := none }

/-! # Theorems -/

/-- A predicate false on every element leaves dropWhile inert. -/
theorem dropWhile_all_false {p : Char → Bool} :
    ∀ {l : PyStr}, (∀ c ∈ l, p c = false) → l.dropWhile p = l := by
  intro l h
  cases l with
  | nil => rfl
  | cons c t => simp [List.dropWhile_cons, h c (by simp)]

/-- A head that fails the predicate leaves dropWhile inert. -/
theorem dropWhile_eq_self_of_head? {p : Char → Bool} (l : PyStr)
    (h : ∀ c, l.head? = some c → p c = false) : l.dropWhile p = l := by
  cases l with
  | nil => rfl
  | cons c t => simp [List.dropWhile_cons, h c rfl]

/-- Digits are not whitespace. -/
theorem isDig_not_ws (c : Char) (h : isDig c = true) : wsC c = false := by
  have h1 : c ≠ ' ' := fun e => by subst e; exact absurd h (by decide)
  have h2 : c ≠ '\t' := fun e => by subst e; exact absurd h (by decide)
  have h3 : c ≠ '\n' := fun e => by subst e; exact absurd h (by decide)
  have h4 : c ≠ '\r' := fun e => by subst e; exact absurd h (by decide)
  have h5 : c ≠ '\x0c' := fun e => by subst e; exact absurd h (by decide)
  have h6 : c ≠ '\x0b' := fun e => by subst e; exact absurd h (by decide)
  simp [wsC, h1, h2, h3, h4, h5, h6]

/-- A string of digits is untouched by strip. -/
theorem stripList_digits {s : PyStr} (h : ∀ c ∈ s, isDig c = true) :
    stripList s = s := by
  unfold stripList
  rw [dropWhile_all_false (fun c hc => isDig_not_ws c (h c hc)),
      dropWhile_all_false (fun c hc => isDig_not_ws c (h c (List.mem_reverse.mp hc))),
      List.reverse_reverse]

/-- C1: gather_candidates is claimed to return no two candidates whose
timestamps share an ISO-8601 serialization; the code performs no
deduplication at all, contradicting its own docstring, and on a file
carrying the same timestamp under two metadata keys it returns both
entries with identical timestamps. -/
theorem c1_gather_candidates_keeps_duplicate_timestamps :
    gather_candidates fuzzy0 fromts0 ctxDup [pystr "A", pystr "B"] none none
      = .ok [(pystr "a.jpg: A", dtC1), (pystr "a.jpg: B", dtC1)] ∧
    ¬ List.Pairwise (fun a b : PyStr × DateTime =>
        isoformat a.2 ≠ isoformat b.2)
      [(pystr "a.jpg: A", dtC1), (pystr "a.jpg: B", dtC1)] := by
  refine ⟨rfl, fun h => ?_⟩
  exact absurd rfl ((List.pairwise_cons.mp h).1 (pystr "a.jpg: B", dtC1) (by simp))

/-- C2: the candidates contributed for a backup match are claimed to
be extracted from the matched backup file; the code passes the
original path to the extraction call, so the backup-labelled candidate
below carries the main file timestamp (tick 100), not the backup file
timestamp (tick 200). -/
theorem c2_backup_candidates_read_original_file :
    gather_candidates fuzzy0 fromts0 ctxMain []
      (some [(pystr "sub/photo.jpg", ctxBackup)])
      (some [pystr "File:System:FileModifyDate"])
      = .ok [(pystr "backup: sub/photo.jpg: File:System:FileModifyDate",
              fromts0 100)] ∧
    fromts0 100 ≠ fromts0 200 ∧
    ctxMain.stat.mtime = 100 ∧ ctxBackup.stat.mtime = 200 := by
  refine ⟨rfl, by decide, rfl, rfl⟩

/-- C3 counterexample: with the tool unavailable, a dry_run=true call
of the metadata writer is claimed to report and return successfully;
it raises the tool-not-found failure instead. -/
theorem c3_dry_run_still_raises_without_tool :
    set_exif_tags false (pystr "a.jpg")
      [(pystr "AllDates", pystr "2020:01:01 00:00:00")] true false
      = .error (.runtimeError (pystr "exiftool not found on PATH")) := rfl

/-- C3 amended: the availability check of set_exif_tags precedes the
dry-run branch, so every call without the tool raises tool-not-found,
dry run included; with the tool available, a dry-run call prints the
intended command, executes nothing and returns true. -/
theorem c3_tool_check_precedes_dry_run :
    ∀ (path : PyStr) (tags : List (PyStr × PyStr)) (dry upd : Bool),
      set_exif_tags false path tags dry upd
        = .error (.runtimeError (pystr "exiftool not found on PATH")) ∧
      set_exif_tags true path tags true upd
        = .ok ⟨[pystr "DRY RUN: " ++ joinSp (buildExifCmd tags upd path)],
               false, true⟩ := by
  intro path tags dry upd
  exact ⟨rfl, rfl⟩

/-- C4: resolving the filesystem selectors is claimed to map the
created-date selector to the platform birth time with a fallback to
the modification time where birth time is unavailable; the code has no
fallback and raises AttributeError there, while the three other
selectors resolve as claimed. -/
theorem c4_created_date_raises_without_birthtime :
    ∀ (fromts : Int → DateTime),
      system_tag_to_datetime fromts stNoBirth
        (pystr "File:System:FileAccessDate") = .ok (some (fromts 11)) ∧
      system_tag_to_datetime fromts stNoBirth
        (pystr "File:System:FileModifyDate") = .ok (some (fromts 22)) ∧
      system_tag_to_datetime fromts stNoBirth
        (pystr "File:System:FileInodeChangeDate") = .ok (some (fromts 33)) ∧
      system_tag_to_datetime fromts stNoBirth
        (pystr "File:System:CreatedDate") = .error .attributeError := by
  intro fromts
  exact ⟨rfl, rfl, rfl, rfl⟩

/-- C5: every destination selector drawn from the closed filesystem
set is delegated by apply_destinations to the filesystem time setter
with that selector and the chosen datetime, never to the metadata
writer; this covers the created-date selector in particular. -/
theorem c5_fs_destinations_delegate_to_time_setter :
    ∀ (dests : List PyStr) (dt : DateTime) (dry upd : Bool) (d : PyStr),
      apply_destinations dests dt dry upd
        = dests.map (fun x => applyOneDest x dt dry upd) ∧
      (d ∈ ALL_FS_TAGS → applyOneDest d dt dry upd = .fsTime d dt dry) := by
  intro dests dt dry upd d
  exact ⟨rfl, fun hd => by simp [applyOneDest, if_pos hd]⟩

/-- Witness for C5 at the created-date selector. -/
theorem c5_witness :
    applyOneDest (pystr "File:System:CreatedDate") dtC1 true false
      = .fsTime (pystr "File:System:CreatedDate") dtC1 true :=
  (c5_fs_destinations_delegate_to_time_setter [] dtC1 true false
    (pystr "File:System:CreatedDate")).2 (by decide)

/-- C6: parse_date returns null on None, on non-strings, on the empty
string and on every purely numeric string of one to six digits, and
(being a total function of its input and of the external fuzzy parser)
never raises. -/
theorem c6_parse_date_total_null_cases :
    ∀ (fuzzy : PyStr → Option DateTime),
      parse_date fuzzy .nonstr = none ∧
      parse_date fuzzy (.str []) = none ∧
      ∀ s : PyStr, s ≠ [] → s.length ≤ 6 → (∀ c ∈ s, isDig c = true) →
        parse_date fuzzy (.str s) = none := by
  intro fuzzy
  refine ⟨rfl, rfl, ?_⟩
  intro s hne hlen hdig
  have hsmall : isSmallNumeric s = true := by
    unfold isSmallNumeric
    have h1 : 1 ≤ s.length := List.length_pos.mpr hne
    simp [h1, hlen, List.all_eq_true.mpr hdig]
  simp [parse_date, hne, stripList_digits hdig, hsmall]

/-- Witness for C6 on the inputs named by the spec. -/
theorem c6_witness :
    parse_date fuzzy0 .nonstr = none ∧
    parse_date fuzzy0 (.str []) = none ∧
    parse_date fuzzy0 (.str (pystr "732")) = none :=
  ⟨(c6_parse_date_total_null_cases fuzzy0).1,
   (c6_parse_date_total_null_cases fuzzy0).2.1,
   (c6_parse_date_total_null_cases fuzzy0).2.2 (pystr "732")
     (by decide) (by decide) (by decide)⟩

/-- C9: the selection of cmd_set_dates enters the interactive branch
exactly when the flag is set or more than one candidate exists,
otherwise auto-accepts the sole candidate datetime or null when there
is none; and interactive_choose on an empty candidate list returns
null before its prompt loop can consume any input. -/
theorem c9_selection_policy :
    ∀ (force : Bool) (cands : List (PyStr × DateTime)) (script : List PyStr),
      (selectionDecision force cands = .interactive ↔
        (force = true ∨ 1 < cands.length)) ∧
      ((force = false ∧ cands.length ≤ 1) →
        selectionDecision force cands
          = .autoAccept (cands.head?.map (fun p => p.2))) ∧
      interactive_choose [] script = .ret none := by
  intro force cands script
  refine ⟨?_, ?_, rfl⟩
  · cases force <;> simp [selectionDecision]
  · rintro ⟨hf, hl⟩
    subst hf
    have : ¬ (1 < cands.length) := by omega
    simp [selectionDecision, this]

/-- Witness for C9: one candidate, no flag, auto-accepted; empty list
short-circuits. -/
theorem c9_witness :
    selectionDecision false [(pystr "x", dtC1)] = .autoAccept (some dtC1) ∧
    interactive_choose [] [] = .ret none :=
  ⟨(c9_selection_policy false [(pystr "x", dtC1)] []).2.1 ⟨rfl, by decide⟩,
   (c9_selection_policy false [] []).2.2⟩

/-- C10: candidate collection treats a selector list as wildcard
exactly when its first element is the star or ALL selector; a wildcard
token in any later position goes through the ordinary selector path
and, being neither a filesystem selector nor a present metadata key,
contributes no candidate. -/
theorem c10_wildcard_only_first_position :
    ∀ (fuzzy : PyStr → Option DateTime) (fromts : Int → DateTime)
      (ctx : FileCtx) (pfx : PyStr) (t0 : PyStr) (rest : List PyStr),
      (t0 ∉ WILD → candidates_for_file fuzzy fromts ctx (t0 :: rest) pfx
        = candsSelected fuzzy fromts ctx pfx (t0 :: rest)) ∧
      (t0 ∈ WILD → candidates_for_file fuzzy fromts ctx (t0 :: rest) pfx
        = candsAll fuzzy fromts ctx pfx) ∧
      (∀ w ∈ WILD, lookupTag ctx.tags w = none →
        candTag fuzzy fromts ctx pfx w = .ok []) := by
  intro fuzzy fromts ctx pfx t0 rest
  refine ⟨?_, ?_, ?_⟩
  · intro hni
    simp [candidates_for_file, List.headI, hni]
  · intro hmem
    simp [candidates_for_file, List.headI, hmem]
  · intro w hw hlook
    have hnfs : ¬ w ∈ ALL_FS_TAGS := by
      rcases (by simpa [WILD] using hw : w = pystr "*" ∨ w = pystr "ALL") with h | h <;>
        subst h <;> decide
    simp [candTag, hnfs, hlook]

/-- Witness for C10: a later star selector contributes nothing and the
head selector decides the branch. -/
theorem c10_witness :
    candidates_for_file fuzzy0 fromts0 ctxDup [pystr "A", pystr "*"]
      (pystr "p: ")
      = candsSelected fuzzy0 fromts0 ctxDup (pystr "p: ")
          [pystr "A", pystr "*"] ∧
    candTag fuzzy0 fromts0 ctxDup (pystr "p: ") (pystr "*") = .ok [] :=
  ⟨(c10_wildcard_only_first_position fuzzy0 fromts0 ctxDup (pystr "p: ")
      (pystr "A") [pystr "*"]).1 (by decide),
   (c10_wildcard_only_first_position fuzzy0 fromts0 ctxDup (pystr "p: ")
      (pystr "A") []).2.2 (pystr "*") (by decide) (by decide)⟩

/-- C8: evaluation of a comparison term applies the operator to the
two coerced operand values; when that raises, the same operator is
applied to the two raw resolved strings, which never raises; a term
the grammar rejects evaluates to false; and the evaluator as used by
search is a total boolean function of its inputs. -/
theorem c8_eval_cmp_term_fallback :
    ∀ (fuzzy : PyStr → Option DateTime) (pyfloat : PyStr → Option Rat)
      (tags : List (PyStr × Option PyStr)) (term : PyStr),
      (parseCmpTerm term = none →
        evalTermForSearch fuzzy pyfloat tags term = false) ∧
      (∀ araw op braw, parseCmpTerm term = some (araw, op, braw) →
        pyCompare op (.pstr ((_find_tag_value tags araw).getD araw))
                     (.pstr ((_find_tag_value tags braw).getD braw))
          = .ok (applyOrd op
              (strCmp ((_find_tag_value tags araw).getD araw)
                      ((_find_tag_value tags braw).getD braw))) ∧
        evalTermForSearch fuzzy pyfloat tags term =
          (match pyCompare op
              (_coerce_value fuzzy pyfloat ((_find_tag_value tags araw).getD araw))
              (_coerce_value fuzzy pyfloat ((_find_tag_value tags braw).getD braw)) with
           | .ok r => r
           | .error _ => applyOrd op
               (strCmp ((_find_tag_value tags araw).getD araw)
                       ((_find_tag_value tags braw).getD braw)))) := by
  intro fuzzy pyfloat tags term
  constructor
  · intro hnone
    simp [evalTermForSearch, _eval_cmp_term, hnone]
  · intro araw op braw hsome
    refine ⟨rfl, ?_⟩
    simp only [evalTermForSearch, _eval_cmp_term, hsome]
    cases hcmp : pyCompare op
        (_coerce_value fuzzy pyfloat ((_find_tag_value tags araw).getD araw))
        (_coerce_value fuzzy pyfloat ((_find_tag_value tags braw).getD braw)) with
    | ok r => rfl
    | error e => rfl

/-- Witness for C8 on a literal term and the empty mapping. -/
theorem c8_witness :
    evalTermForSearch fuzzy0 pyfloat0 [] (pystr "A == 5") =
      (match pyCompare .eq
          (_coerce_value fuzzy0 pyfloat0 ((_find_tag_value [] (pystr "A")).getD (pystr "A")))
          (_coerce_value fuzzy0 pyfloat0 ((_find_tag_value [] (pystr "5")).getD (pystr "5"))) with
       | .ok r => r
       | .error _ => applyOrd .eq
           (strCmp ((_find_tag_value [] (pystr "A")).getD (pystr "A"))
                   ((_find_tag_value [] (pystr "5")).getD (pystr "5")))) :=
  ((c8_eval_cmp_term_fallback fuzzy0 pyfloat0 [] (pystr "A == 5")).2
    (pystr "A") .eq (pystr "5") (by decide)).2

/-! ## Digit and padding facts for the round-trip proof of C7 -/

theorem digitVal_le_nine {c : Char} (h : isDig c = true) : digitVal c ≤ 9 := by
  unfold isDig at h
  simp only [Bool.and_eq_true, decide_eq_true_eq] at h
  unfold digitVal
  have h0 : Char.toNat '0' = 48 := rfl
  rw [h0]
  omega

theorem isDig_digitChar (n : Nat) : isDig (digitChar n) = true := by
  have h : n % 10 < 10 := Nat.mod_lt _ (by omega)
  unfold digitChar
  interval_cases h2 : n % 10 <;> decide

theorem digitVal_digitChar (n : Nat) : digitVal (digitChar n) = n % 10 := by
  have h : n % 10 < 10 := Nat.mod_lt _ (by omega)
  unfold digitChar digitVal
  interval_cases h2 : n % 10 <;> decide

theorem padNum_length (w n : Nat) : (padNum w n).length = w := by
  induction w generalizing n with
  | zero => rfl
  | succ w ih => simp [padNum, ih]

theorem padNum_all_digits (w n : Nat) :
    ∀ c ∈ padNum w n, isDig c = true := by
  induction w generalizing n with
  | zero => intro c hc; simp [padNum] at hc
  | succ w ih =>
      intro c hc
      simp only [padNum, List.mem_append, List.mem_singleton] at hc
      rcases hc with hc | hc
      · exact ih _ c hc
      · subst hc; exact isDig_digitChar n

theorem natOfDigits_append_last (ds : List Char) (c : Char) :
    natOfDigits (ds ++ [c]) = natOfDigits ds * 10 + digitVal c := by
  simp [natOfDigits, List.foldl_append]

theorem natOfDigits_padNum (w n : Nat) (h : n < 10 ^ w) :
    natOfDigits (padNum w n) = n := by
  induction w generalizing n with
  | zero => simp [padNum, natOfDigits]; omega
  | succ w ih =>
      have hdiv : n / 10 < 10 ^ w := by
        rw [Nat.div_lt_iff_lt_mul (by omega)]
        calc n < 10 ^ (w + 1) := h
        _ = 10 ^ w * 10 := by ring
      simp only [padNum, natOfDigits_append_last, ih (n / 10) hdiv,
        digitVal_digitChar]
      omega

theorem natOfDigits_lt (ds : List Char) (h : ∀ c ∈ ds, isDig c = true) :
    natOfDigits ds < 10 ^ ds.length := by
  induction ds using List.reverseRecOn with
  | nil => simp [natOfDigits]
  | append_singleton t c ih =>
      have hd : digitVal c ≤ 9 := digitVal_le_nine (h c (by simp))
      have ht := ih (fun x hx => h x (by simp [hx]))
      rw [natOfDigits_append_last]
      simp only [List.length_append, List.length_singleton]
      calc natOfDigits t * 10 + digitVal c ≤ natOfDigits t * 10 + 9 := by omega
      _ < 10 ^ t.length * 10 := by omega
      _ = 10 ^ (t.length + 1) := by ring

theorem takeWhile_append_of {p : Char → Bool} (t u : PyStr)
    (ht : ∀ c ∈ t, p c = true)
    (hu : ∀ c, u.head? = some c → p c = false) :
    (t ++ u).takeWhile p = t ∧ (t ++ u).dropWhile p = u := by
  induction t with
  | nil =>
      simp only [List.nil_append]
      cases u with
      | nil => simp
      | cons c v => simp [List.takeWhile_cons, List.dropWhile_cons, hu c rfl]
  | cons a t ih =>
      have ha := ht a (by simp)
      have ih2 := ih (fun c hc => ht c (by simp [hc]))
      simp [List.takeWhile_cons, List.dropWhile_cons, ha, ih2.1, ih2.2]

/-! ## Reparse lemmas: printed fields parse back to themselves -/

theorem parseTwoDig_print (v : Nat) (u : PyStr) (h : v ≤ 99) :
    parseTwoDig (padNum 2 v ++ u) = some (v, u) := by
  have heq : padNum 2 v = [digitChar (v / 10), digitChar v] := rfl
  rw [heq]
  simp only [List.cons_append, List.nil_append, parseTwoDig,
    isDig_digitChar, Bool.and_self, if_true, digitVal_digitChar]
  have hv : 10 * (v / 10 % 10) + v % 10 = v := by omega
  rw [hv]

theorem parseNum2_print (minv maxv v : Nat) (u : PyStr) (h1 : minv ≤ v)
    (h2 : v ≤ maxv) (h99 : v ≤ 99)
    (hu : ∀ c, u.head? = some c → isDig c = false) :
    parseNum2 minv maxv (padNum 2 v ++ u) = some (v, u) := by
  obtain ⟨ht, hd⟩ := takeWhile_append_of (padNum 2 v) u (padNum_all_digits 2 v) hu
  have heq : padNum 2 v = [digitChar (v / 10), digitChar v] := rfl
  rw [heq] at ht hd ⊢
  simp only [parseNum2, ht, hd, digitVal_digitChar]
  have hv : 10 * (v / 10 % 10) + v % 10 = v := by omega
  rw [hv]
  simp [h1, h2]

theorem parseYear4_of_four (t u : PyStr) (hl : t.length = 4)
    (hd : ∀ c ∈ t, isDig c = true) :
    parseYear4 (t ++ u) = some (natOfDigits t, u) := by
  rcases t with _ | ⟨c1, _ | ⟨c2, _ | ⟨c3, _ | ⟨c4, _ | ⟨c5, t5⟩⟩⟩⟩⟩ <;>
    simp only [List.length] at hl <;> try omega
  simp [parseYear4, hd c1 (by simp), hd c2 (by simp), hd c3 (by simp),
    hd c4 (by simp)]

theorem parseYear4_print (v : Nat) (u : PyStr) (h : v ≤ 9999) :
    parseYear4 (padNum 4 v ++ u) = some (v, u) := by
  rw [parseYear4_of_four _ _ (padNum_length 4 v) (padNum_all_digits 4 v),
    natOfDigits_padNum 4 v (by omega)]

theorem parseFrac_print (v : Nat) (u : PyStr) (h : v ≤ 999999)
    (hu : ∀ c, u.head? = some c → isDig c = false) :
    parseFrac (padNum 6 v ++ u) = some (v, u) := by
  obtain ⟨ht, hd⟩ := takeWhile_append_of (padNum 6 v) u (padNum_all_digits 6 v) hu
  simp only [parseFrac, ht, hd, padNum_length]
  rw [natOfDigits_padNum 6 v (by omega)]
  norm_num

/-! ## Bound lemmas: parsed fields lie in their printable ranges -/

theorem parseTwoDig_shape (s : PyStr) (v : Nat) (r : PyStr)
    (h : parseTwoDig s = some (v, r)) :
    v ≤ 99 ∧ ∃ a b, s = a :: b :: r ∧ isDig a = true ∧ isDig b = true := by
  rcases s with _ | ⟨a, _ | ⟨b, t⟩⟩ <;> simp only [parseTwoDig] at h
  · exact absurd h (by simp)
  · exact absurd h (by simp)
  · by_cases hab : isDig a && isDig b
    · rw [if_pos hab] at h
      injection h with h1
      injection h1 with hv hr
      simp only [Bool.and_eq_true] at hab
      have ha := digitVal_le_nine hab.1
      have hb := digitVal_le_nine hab.2
      exact ⟨by omega, a, b, by rw [hr], hab.1, hab.2⟩
    · rw [if_neg hab] at h
      exact absurd h (by simp)

theorem parseNum2_bound (minv maxv : Nat) (s : PyStr) (v : Nat) (r : PyStr)
    (h9 : 9 ≤ maxv) (h : parseNum2 minv maxv s = some (v, r)) :
    minv ≤ v ∧ v ≤ maxv ∧ v ≤ 99 := by
  unfold parseNum2 at h
  split at h
  case h_1 c heq =>
    have hdig : isDig c = true := List.mem_takeWhile_imp (heq ▸ List.mem_singleton_self c)
    have h9c := digitVal_le_nine hdig
    split at h
    · injection h with h1
      injection h1 with hv hr
      subst hv
      omega
    · exact absurd h (by simp)
  case h_2 c1 c2 heq =>
    have hd1 : isDig c1 = true := List.mem_takeWhile_imp (heq ▸ (by simp : c1 ∈ [c1, c2]))
    have hd2 : isDig c2 = true := List.mem_takeWhile_imp (heq ▸ (by simp : c2 ∈ [c1, c2]))
    have h1 := digitVal_le_nine hd1
    have h2 := digitVal_le_nine hd2
    split at h
    · injection h with he
      injection he with hv hr
      subst hv
      omega
    · exact absurd h (by simp)
  case h_3 => exact absurd h (by simp)

theorem parseYear4_bound (s : PyStr) (v : Nat) (r : PyStr)
    (h : parseYear4 s = some (v, r)) : v ≤ 9999 := by
  unfold parseYear4 at h
  split at h
  case h_1 c1 c2 c3 c4 t =>
    split at h
    case isTrue hc =>
      injection h with h1
      injection h1 with hv hr
      subst hv
      simp only [Bool.and_eq_true] at hc
      have := natOfDigits_lt [c1, c2, c3, c4] (by
        intro c hcm
        simp only [List.mem_cons, List.not_mem_nil, or_false] at hcm
        rcases hcm with rfl | rfl | rfl | rfl
        · exact hc.1.1.1
        · exact hc.1.1.2
        · exact hc.1.2
        · exact hc.2)
      norm_num at this
      omega
    case isFalse => exact absurd h (by simp)
  case h_2 => exact absurd h (by simp)

theorem parseFrac_bound (s : PyStr) (v : Nat) (r : PyStr)
    (h : parseFrac s = some (v, r)) : v ≤ 999999 := by
  unfold parseFrac at h
  split at h
  case isTrue hc =>
    injection h with h1
    injection h1 with hv hr
    subst hv
    have hdig : ∀ c ∈ s.takeWhile isDig, isDig c = true :=
      fun c hc => List.mem_takeWhile_imp hc
    have hlt := natOfDigits_lt _ hdig
    have hle : (s.takeWhile isDig).length ≤ 6 := hc.2
    have hpow : (10 : Nat) ^ (s.takeWhile isDig).length *
        10 ^ (6 - (s.takeWhile isDig).length) = 10 ^ 6 := by
      rw [← pow_add]
      congr 1
      omega
    have := Nat.mul_lt_mul_of_lt_of_le hlt
      (le_refl (10 ^ (6 - (s.takeWhile isDig).length)))
      (by positivity)
    rw [hpow] at this
    omega
  case isFalse => exact absurd h (by simp)

/-! ## Offset lemmas -/

theorem digitChar_ne_of_not_dig {c : Char} (n : Nat) (hc : isDig c = false) :
    digitChar n ≠ c := fun e => by
  have := isDig_digitChar n
  rw [e, hc] at this
  exact absurd this (by simp)

theorem head?_pad2_append (v : Nat) (u : PyStr) :
    (padNum 2 v ++ u).head? = some (digitChar (v / 10)) := rfl

theorem pad2_append_head_not_colon (v : Nat) (u : PyStr) :
    ¬ ((padNum 2 v ++ u).head? = some ':') := by
  rw [head?_pad2_append]
  intro he
  injection he with he2
  exact digitChar_ne_of_not_dig (v / 10) (by decide) he2

theorem parseTzFinish_bound (c : Char) (hh mm : Nat) (p : Nat × PyStr)
    (o : Int) (r : PyStr) (h : parseTzFinish c hh mm p = some (o, r)) :
    o.natAbs < 86400000000 := by
  unfold parseTzFinish at h
  split at h
  case isTrue hlt =>
    injection h with h1
    injection h1 with ho hr
    subst ho
    split
    · omega
    · omega
  case isFalse => exact absurd h (by simp)

theorem parseTz_bound (s : PyStr) (o : Int) (r : PyStr)
    (h : parseTz s = some (o, r)) : o.natAbs < 86400000000 := by
  rcases s with _ | ⟨c, r0⟩
  · exact absurd h (by simp [parseTz])
  · simp only [parseTz] at h
    split at h
    · injection h with h1
      injection h1 with ho hr
      subst ho
      omega
    · split at h
      case isTrue =>
        cases hq : parseTwoDig r0 with
        | none => rw [hq] at h; exact absurd h (by simp)
        | some q =>
            rw [hq, Option.some_bind] at h
            unfold parseTzAfterHH at h
            cases hq2 : parseTwoDig (if q.2.head? = some ':' ∧
                (parseTwoDig q.2.tail).isSome then q.2.tail else q.2) with
            | none => rw [hq2] at h; exact absurd h (by simp)
            | some q2 =>
                rw [hq2, Option.some_bind] at h
                exact parseTzFinish_bound _ _ _ _ _ _ h
      case isFalse => exact absurd h (by simp)

theorem parseTzSecFrac_print (ss us : Nat) (hss : ss ≤ 59)
    (hus : us ≤ 999999) :
    parseTzSecFrac (printTzTail ss us) = (ss * 1000000 + us, []) := by
  by_cases h0 : ss = 0 ∧ us = 0
  · obtain ⟨h1, h2⟩ := h0
    subst h1; subst h2
    rfl
  · by_cases hu0 : us = 0
    · subst hu0
      have hpt : printTzTail ss 0 = padNum 2 ss ++ [] := by
        unfold printTzTail
        rw [if_neg h0, if_pos rfl]
      rw [hpt]
      unfold parseTzSecFrac
      rw [if_neg (pad2_append_head_not_colon ss [])]
      unfold parseTzSecCore
      rw [parseTwoDig_print ss [] (by omega), Option.some_bind]
      simp
    · have hpt : printTzTail ss us = padNum 2 ss ++ ('.' :: padNum 6 us) := by
        unfold printTzTail
        rw [if_neg h0, if_neg hu0]
      rw [hpt]
      unfold parseTzSecFrac
      rw [if_neg (pad2_append_head_not_colon ss _)]
      unfold parseTzSecCore
      rw [parseTwoDig_print ss ('.' :: padNum 6 us) (by omega), Option.some_bind]
      have hf := parseFrac_print us [] hus (by intro c hc; simp at hc)
      rw [List.append_nil] at hf
      simp [hf]

theorem parseTz_print (o : Int) (h : o.natAbs < 86400000000) :
    parseTz (printTz o) = some (o, []) := by
  have hhh : o.natAbs / 1000000 / 3600 ≤ 23 := by omega
  have hmm : o.natAbs / 1000000 % 3600 / 60 ≤ 59 := by omega
  have hss : o.natAbs / 1000000 % 60 ≤ 59 := by omega
  have hus : o.natAbs % 1000000 ≤ 999999 := by omega
  simp only [printTz, parseTz]
  have hsgn : (if o < 0 then '-' else '+') ≠ 'Z' := by
    split <;> decide
  rw [if_neg hsgn, if_pos (by split <;> simp)]
  rw [parseTwoDig_print _ _ (by omega), Option.some_bind]
  unfold parseTzAfterHH
  have hcol : ¬ ((padNum 2 (o.natAbs / 1000000 % 3600 / 60) ++
      printTzTail (o.natAbs / 1000000 % 60) (o.natAbs % 1000000)).head?
        = some ':' ∧ (parseTwoDig ((padNum 2 (o.natAbs / 1000000 % 3600 / 60) ++
      printTzTail (o.natAbs / 1000000 % 60) (o.natAbs % 1000000)).tail)).isSome = true) :=
    fun hand => pad2_append_head_not_colon _ _ hand.1
  rw [if_neg hcol]
  rw [parseTwoDig_print _ _ (by omega), Option.some_bind]
  rw [parseTzSecFrac_print _ _ hss hus]
  unfold parseTzFinish
  dsimp only
  have htot : (o.natAbs / 1000000 / 3600 * 3600 +
      o.natAbs / 1000000 % 3600 / 60 * 60) * 1000000 +
      (o.natAbs / 1000000 % 60 * 1000000 + o.natAbs % 1000000) = o.natAbs := by
    omega
  rw [htot, if_pos h]
  by_cases hneg : o < 0
  · have hs2 : (if o < 0 then '-' else '+') = '-' := if_pos hneg
    rw [hs2, if_pos rfl]
    have hval : -((o.natAbs : Nat) : Int) = o := by omega
    rw [hval]
  · have hs2 : (if o < 0 then '-' else '+') = '+' := if_neg hneg
    rw [hs2, if_neg (by decide : ¬ ('+' : Char) = '-')]
    have hval : ((o.natAbs : Nat) : Int) = o := by omega
    rw [hval]

/-! ## Field preservation and range preservation across directives -/

theorem parseDir_fields (d : Dir) (s : PyStr) (acc acc1 : DateTime)
    (r : PyStr) (h : parseDir d s acc = some (acc1, r)) :
    (d ≠ .year4 → acc1.year = acc.year) ∧
    (d ≠ .mon2 → acc1.month = acc.month) ∧
    (d ≠ .day2 → acc1.day = acc.day) ∧
    (d ≠ .hour2 → acc1.hour = acc.hour) ∧
    (d ≠ .min2 → acc1.minute = acc.minute) ∧
    (d ≠ .sec2 → acc1.second = acc.second) ∧
    (d ≠ .frac6 → acc1.usec = acc.usec) ∧
    (d ≠ .tzdir → acc1.tz = acc.tz) := by
  cases d
  case year4 =>
    simp only [parseDir] at h
    rcases Option.map_eq_some'.mp h with ⟨p, hp, heq⟩
    cases heq
    exact ⟨fun hd => absurd rfl hd, fun _ => rfl, fun _ => rfl, fun _ => rfl,
      fun _ => rfl, fun _ => rfl, fun _ => rfl, fun _ => rfl⟩
  case mon2 =>
    simp only [parseDir] at h
    rcases Option.map_eq_some'.mp h with ⟨p, hp, heq⟩
    cases heq
    exact ⟨fun _ => rfl, fun hd => absurd rfl hd, fun _ => rfl, fun _ => rfl,
      fun _ => rfl, fun _ => rfl, fun _ => rfl, fun _ => rfl⟩
  case day2 =>
    simp only [parseDir] at h
    rcases Option.map_eq_some'.mp h with ⟨p, hp, heq⟩
    cases heq
    exact ⟨fun _ => rfl, fun _ => rfl, fun hd => absurd rfl hd, fun _ => rfl,
      fun _ => rfl, fun _ => rfl, fun _ => rfl, fun _ => rfl⟩
  case hour2 =>
    simp only [parseDir] at h
    rcases Option.map_eq_some'.mp h with ⟨p, hp, heq⟩
    cases heq
    exact ⟨fun _ => rfl, fun _ => rfl, fun _ => rfl, fun hd => absurd rfl hd,
      fun _ => rfl, fun _ => rfl, fun _ => rfl, fun _ => rfl⟩
  case min2 =>
    simp only [parseDir] at h
    rcases Option.map_eq_some'.mp h with ⟨p, hp, heq⟩
    cases heq
    exact ⟨fun _ => rfl, fun _ => rfl, fun _ => rfl, fun _ => rfl,
      fun hd => absurd rfl hd, fun _ => rfl, fun _ => rfl, fun _ => rfl⟩
  case sec2 =>
    simp only [parseDir] at h
    rcases Option.map_eq_some'.mp h with ⟨p, hp, heq⟩
    cases heq
    exact ⟨fun _ => rfl, fun _ => rfl, fun _ => rfl, fun _ => rfl,
      fun _ => rfl, fun hd => absurd rfl hd, fun _ => rfl, fun _ => rfl⟩
  case frac6 =>
    simp only [parseDir] at h
    rcases Option.map_eq_some'.mp h with ⟨p, hp, heq⟩
    cases heq
    exact ⟨fun _ => rfl, fun _ => rfl, fun _ => rfl, fun _ => rfl,
      fun _ => rfl, fun _ => rfl, fun hd => absurd rfl hd, fun _ => rfl⟩
  case tzdir =>
    simp only [parseDir] at h
    rcases Option.map_eq_some'.mp h with ⟨p, hp, heq⟩
    cases heq
    exact ⟨fun _ => rfl, fun _ => rfl, fun _ => rfl, fun _ => rfl,
      fun _ => rfl, fun _ => rfl, fun _ => rfl, fun hd => absurd rfl hd⟩
  case ws =>
    rcases s with _ | ⟨c, r0⟩
    · exact absurd h (by simp [parseDir])
    · simp only [parseDir] at h
      split at h
      · injection h with h1
        cases h1
        exact ⟨fun _ => rfl, fun _ => rfl, fun _ => rfl, fun _ => rfl,
          fun _ => rfl, fun _ => rfl, fun _ => rfl, fun _ => rfl⟩
      · exact absurd h (by simp)
  case lit c0 =>
    rcases s with _ | ⟨c, r0⟩
    · exact absurd h (by simp [parseDir])
    · simp only [parseDir] at h
      split at h
      · injection h with h1
        cases h1
        exact ⟨fun _ => rfl, fun _ => rfl, fun _ => rfl, fun _ => rfl,
          fun _ => rfl, fun _ => rfl, fun _ => rfl, fun _ => rfl⟩
      · exact absurd h (by simp)

theorem parseDir_tz_set (s : PyStr) (acc acc1 : DateTime) (r : PyStr)
    (h : parseDir .tzdir s acc = some (acc1, r)) : acc1.tz.isSome = true := by
  simp only [parseDir] at h
  rcases Option.map_eq_some'.mp h with ⟨p, hp, heq⟩
  cases heq
  rfl

theorem parseDir_ranged (d : Dir) (s : PyStr) (acc acc1 : DateTime)
    (r : PyStr) (h : parseDir d s acc = some (acc1, r))
    (hr : RangedB acc = true) : RangedB acc1 = true := by
  simp only [RangedB, Bool.and_eq_true, decide_eq_true_eq] at hr
  obtain ⟨⟨⟨⟨⟨⟨⟨⟨⟨h1, h2⟩, h3⟩, h4⟩, h5⟩, h6⟩, h7⟩, h8⟩, h9⟩, h10⟩ := hr
  cases d
  case year4 =>
    simp only [parseDir] at h
    rcases Option.map_eq_some'.mp h with ⟨p, hp, heq⟩
    cases heq
    have hb := parseYear4_bound _ _ _ hp
    simp only [RangedB, Bool.and_eq_true, decide_eq_true_eq]
    exact ⟨⟨⟨⟨⟨⟨⟨⟨⟨hb, h2⟩, h3⟩, h4⟩, h5⟩, h6⟩, h7⟩, h8⟩, h9⟩, h10⟩
  case mon2 =>
    simp only [parseDir] at h
    rcases Option.map_eq_some'.mp h with ⟨p, hp, heq⟩
    cases heq
    obtain ⟨hb1, hb2, hb3⟩ := parseNum2_bound 1 12 s p.1 p.2 (by omega) hp
    simp only [RangedB, Bool.and_eq_true, decide_eq_true_eq]
    exact ⟨⟨⟨⟨⟨⟨⟨⟨⟨h1, hb1⟩, hb2⟩, h4⟩, h5⟩, h6⟩, h7⟩, h8⟩, h9⟩, h10⟩
  case day2 =>
    simp only [parseDir] at h
    rcases Option.map_eq_some'.mp h with ⟨p, hp, heq⟩
    cases heq
    obtain ⟨hb1, hb2, hb3⟩ := parseNum2_bound 1 31 s p.1 p.2 (by omega) hp
    simp only [RangedB, Bool.and_eq_true, decide_eq_true_eq]
    exact ⟨⟨⟨⟨⟨⟨⟨⟨⟨h1, h2⟩, h3⟩, hb1⟩, hb2⟩, h6⟩, h7⟩, h8⟩, h9⟩, h10⟩
  case hour2 =>
    simp only [parseDir] at h
    rcases Option.map_eq_some'.mp h with ⟨p, hp, heq⟩
    cases heq
    obtain ⟨hb1, hb2, hb3⟩ := parseNum2_bound 0 23 s p.1 p.2 (by omega) hp
    simp only [RangedB, Bool.and_eq_true, decide_eq_true_eq]
    exact ⟨⟨⟨⟨⟨⟨⟨⟨⟨h1, h2⟩, h3⟩, h4⟩, h5⟩, hb2⟩, h7⟩, h8⟩, h9⟩, h10⟩
  case min2 =>
    simp only [parseDir] at h
    rcases Option.map_eq_some'.mp h with ⟨p, hp, heq⟩
    cases heq
    obtain ⟨hb1, hb2, hb3⟩ := parseNum2_bound 0 59 s p.1 p.2 (by omega) hp
    simp only [RangedB, Bool.and_eq_true, decide_eq_true_eq]
    exact ⟨⟨⟨⟨⟨⟨⟨⟨⟨h1, h2⟩, h3⟩, h4⟩, h5⟩, h6⟩, hb2⟩, h8⟩, h9⟩, h10⟩
  case sec2 =>
    simp only [parseDir] at h
    rcases Option.map_eq_some'.mp h with ⟨p, hp, heq⟩
    cases heq
    obtain ⟨hb1, hb2, hb3⟩ := parseNum2_bound 0 61 s p.1 p.2 (by omega) hp
    simp only [RangedB, Bool.and_eq_true, decide_eq_true_eq]
    exact ⟨⟨⟨⟨⟨⟨⟨⟨⟨h1, h2⟩, h3⟩, h4⟩, h5⟩, h6⟩, h7⟩, hb2⟩, h9⟩, h10⟩
  case frac6 =>
    simp only [parseDir] at h
    rcases Option.map_eq_some'.mp h with ⟨p, hp, heq⟩
    cases heq
    have hb := parseFrac_bound s p.1 p.2 hp
    simp only [RangedB, Bool.and_eq_true, decide_eq_true_eq]
    exact ⟨⟨⟨⟨⟨⟨⟨⟨⟨h1, h2⟩, h3⟩, h4⟩, h5⟩, h6⟩, h7⟩, h8⟩, hb⟩, h10⟩
  case tzdir =>
    simp only [parseDir] at h
    rcases Option.map_eq_some'.mp h with ⟨p, hp, heq⟩
    cases heq
    have hb := parseTz_bound s p.1 p.2 hp
    simp only [RangedB, Bool.and_eq_true, decide_eq_true_eq]
    refine ⟨⟨⟨⟨⟨⟨⟨⟨⟨h1, h2⟩, h3⟩, h4⟩, h5⟩, h6⟩, h7⟩, h8⟩, h9⟩, ?_⟩
    simp [Option.all, hb]
  case ws =>
    rcases s with _ | ⟨c, r0⟩
    · exact absurd h (by simp [parseDir])
    · simp only [parseDir] at h
      split at h
      · injection h with heq
        cases heq
        simp only [RangedB, Bool.and_eq_true, decide_eq_true_eq]
        exact ⟨⟨⟨⟨⟨⟨⟨⟨⟨h1, h2⟩, h3⟩, h4⟩, h5⟩, h6⟩, h7⟩, h8⟩, h9⟩, h10⟩
      · exact absurd h (by simp)
  case lit c0 =>
    rcases s with _ | ⟨c, r0⟩
    · exact absurd h (by simp [parseDir])
    · simp only [parseDir] at h
      split at h
      · injection h with heq
        cases heq
        simp only [RangedB, Bool.and_eq_true, decide_eq_true_eq]
        exact ⟨⟨⟨⟨⟨⟨⟨⟨⟨h1, h2⟩, h3⟩, h4⟩, h5⟩, h6⟩, h7⟩, h8⟩, h9⟩, h10⟩
      · exact absurd h (by simp)

theorem parseDirs_cons_elim (d : Dir) (ds : List Dir) (s : PyStr)
    (acc acc2 : DateTime) (r : PyStr)
    (h : parseDirs (d :: ds) s acc = some (acc2, r)) :
    ∃ acc1 r1, parseDir d s acc = some (acc1, r1) ∧
      parseDirs ds r1 acc1 = some (acc2, r) := by
  simp only [parseDirs] at h
  split at h
  case h_1 a b heq => exact ⟨a, b, heq, h⟩
  case h_2 => exact absurd h (by simp)

theorem parseDirs_fields (ds : List Dir) (s : PyStr) (acc acc2 : DateTime)
    (r : PyStr) (h : parseDirs ds s acc = some (acc2, r)) :
    (Dir.year4 ∉ ds → acc2.year = acc.year) ∧
    (Dir.mon2 ∉ ds → acc2.month = acc.month) ∧
    (Dir.day2 ∉ ds → acc2.day = acc.day) ∧
    (Dir.hour2 ∉ ds → acc2.hour = acc.hour) ∧
    (Dir.min2 ∉ ds → acc2.minute = acc.minute) ∧
    (Dir.sec2 ∉ ds → acc2.second = acc.second) ∧
    (Dir.frac6 ∉ ds → acc2.usec = acc.usec) ∧
    (Dir.tzdir ∉ ds → acc2.tz = acc.tz) := by
  induction ds generalizing s acc with
  | nil =>
      simp only [parseDirs] at h
      injection h with h1
      cases h1
      exact ⟨fun _ => rfl, fun _ => rfl, fun _ => rfl, fun _ => rfl,
        fun _ => rfl, fun _ => rfl, fun _ => rfl, fun _ => rfl⟩
  | cons d t ih =>
      obtain ⟨acc1, r1, hd, hrest⟩ := parseDirs_cons_elim d t s acc acc2 r h
      have f1 := parseDir_fields d s acc acc1 r1 hd
      have f2 := ih r1 acc1 hrest
      refine ⟨?_, ?_, ?_, ?_, ?_, ?_, ?_, ?_⟩ <;>
        intro hni <;>
        simp only [List.mem_cons, not_or] at hni
      · rw [f2.1 hni.2, f1.1 (fun e => hni.1 e.symm)]
      · rw [f2.2.1 hni.2, f1.2.1 (fun e => hni.1 e.symm)]
      · rw [f2.2.2.1 hni.2, f1.2.2.1 (fun e => hni.1 e.symm)]
      · rw [f2.2.2.2.1 hni.2, f1.2.2.2.1 (fun e => hni.1 e.symm)]
      · rw [f2.2.2.2.2.1 hni.2, f1.2.2.2.2.1 (fun e => hni.1 e.symm)]
      · rw [f2.2.2.2.2.2.1 hni.2, f1.2.2.2.2.2.1 (fun e => hni.1 e.symm)]
      · rw [f2.2.2.2.2.2.2.1 hni.2, f1.2.2.2.2.2.2.1 (fun e => hni.1 e.symm)]
      · rw [f2.2.2.2.2.2.2.2 hni.2, f1.2.2.2.2.2.2.2 (fun e => hni.1 e.symm)]

theorem parseDirs_ranged (ds : List Dir) (s : PyStr) (acc acc2 : DateTime)
    (r : PyStr) (h : parseDirs ds s acc = some (acc2, r))
    (hr : RangedB acc = true) : RangedB acc2 = true := by
  induction ds generalizing s acc with
  | nil =>
      simp only [parseDirs] at h
      injection h with h1
      cases h1
      exact hr
  | cons d t ih =>
      obtain ⟨acc1, r1, hd, hrest⟩ := parseDirs_cons_elim d t s acc acc2 r h
      exact ih r1 acc1 hrest (parseDir_ranged d s acc acc1 r1 hd hr)

theorem parseDirs_tz_some (ds : List Dir) (s : PyStr) (acc acc2 : DateTime)
    (r : PyStr) (h : parseDirs ds s acc = some (acc2, r))
    (hmem : Dir.tzdir ∈ ds ∨ acc.tz.isSome = true) : acc2.tz.isSome = true := by
  induction ds generalizing s acc with
  | nil =>
      simp only [parseDirs] at h
      injection h with h1
      cases h1
      rcases hmem with hm | hm
      · simp at hm
      · exact hm
  | cons d t ih =>
      obtain ⟨acc1, r1, hd, hrest⟩ := parseDirs_cons_elim d t s acc acc2 r h
      by_cases hdz : d = Dir.tzdir
      · subst hdz
        exact ih r1 acc1 hrest (Or.inr (parseDir_tz_set s acc acc1 r1 hd))
      · have f1 := (parseDir_fields d s acc acc1 r1 hd).2.2.2.2.2.2.2 hdz
        rcases hmem with hm | hm
        · rcases List.mem_cons.mp hm with he | hm2
          · exact absurd he.symm hdz
          · exact ih r1 acc1 hrest (Or.inl hm2)
        · exact ih r1 acc1 hrest (Or.inr (by rw [f1]; exact hm))

/-! ## Printed continuations: first-character facts -/

theorem padNum_head_digit (w v : Nat) (u : PyStr) (c : Char) (hw : 0 < w)
    (hc : (padNum w v ++ u).head? = some c) : isDig c = true := by
  rcases hp : padNum w v with _ | ⟨a, t⟩
  · have := padNum_length w v
    rw [hp] at this
    simp at this
    omega
  · rw [hp] at hc
    simp only [List.cons_append, List.head?_cons] at hc
    injection hc with he
    rw [← he]
    exact padNum_all_digits w v a (by rw [hp]; simp)

theorem print_head_not_digit (ds : List Dir) (acc2 : DateTime)
    (hnd : ∀ d0, ds.head? = some d0 → nonDigitStart d0 = true)
    (htz : Dir.tzdir ∈ ds → acc2.tz.isSome = true)
    (c : Char) (hc : ((ds.map (printDir acc2)).flatten).head? = some c) :
    isDig c = false := by
  cases ds with
  | nil => simp at hc
  | cons d rest =>
      have hd0 := hnd d rfl
      cases d
      case year4 => exact absurd hd0 (by decide)
      case mon2 => exact absurd hd0 (by decide)
      case day2 => exact absurd hd0 (by decide)
      case hour2 => exact absurd hd0 (by decide)
      case min2 => exact absurd hd0 (by decide)
      case sec2 => exact absurd hd0 (by decide)
      case frac6 => exact absurd hd0 (by decide)
      case ws =>
          simp only [List.map_cons, List.flatten_cons, printDir,
            List.cons_append, List.head?_cons] at hc
          injection hc with he
          subst he
          decide
      case lit c0 =>
          simp only [List.map_cons, List.flatten_cons, printDir,
            List.cons_append, List.head?_cons] at hc
          injection hc with he
          subst he
          simpa [nonDigitStart] using hd0
      case tzdir =>
          have hs := htz (by simp)
          rcases hz : acc2.tz with _ | o
          · rw [hz] at hs; simp at hs
          · simp only [List.map_cons, List.flatten_cons, printDir, hz,
              printTz, List.cons_append, List.head?_cons] at hc
            injection hc with he
            subst he
            split <;> decide

theorem print_head_not_ws (ds : List Dir) (acc2 : DateTime)
    (hnw : ∀ d0, ds.head? = some d0 → nonWSStart d0 = true)
    (htz : Dir.tzdir ∈ ds → acc2.tz.isSome = true)
    (c : Char) (hc : ((ds.map (printDir acc2)).flatten).head? = some c) :
    wsC c = false := by
  cases ds with
  | nil => simp at hc
  | cons d rest =>
      have hd0 := hnw d rfl
      cases d
      case year4 =>
          simp only [List.map_cons, List.flatten_cons, printDir] at hc
          exact isDig_not_ws c (padNum_head_digit 4 acc2.year _ c (by omega) hc)
      case mon2 =>
          simp only [List.map_cons, List.flatten_cons, printDir] at hc
          exact isDig_not_ws c (padNum_head_digit 2 acc2.month _ c (by omega) hc)
      case day2 =>
          simp only [List.map_cons, List.flatten_cons, printDir] at hc
          exact isDig_not_ws c (padNum_head_digit 2 acc2.day _ c (by omega) hc)
      case hour2 =>
          simp only [List.map_cons, List.flatten_cons, printDir] at hc
          exact isDig_not_ws c (padNum_head_digit 2 acc2.hour _ c (by omega) hc)
      case min2 =>
          simp only [List.map_cons, List.flatten_cons, printDir] at hc
          exact isDig_not_ws c (padNum_head_digit 2 acc2.minute _ c (by omega) hc)
      case sec2 =>
          simp only [List.map_cons, List.flatten_cons, printDir] at hc
          exact isDig_not_ws c (padNum_head_digit 2 acc2.second _ c (by omega) hc)
      case frac6 =>
          simp only [List.map_cons, List.flatten_cons, printDir] at hc
          exact isDig_not_ws c (padNum_head_digit 6 acc2.usec _ c (by omega) hc)
      case ws => exact absurd hd0 (by decide)
      case lit c0 =>
          simp only [List.map_cons, List.flatten_cons, printDir,
            List.cons_append, List.head?_cons] at hc
          injection hc with he
          subst he
          simpa [nonWSStart] using hd0
      case tzdir =>
          have hs := htz (by simp)
          rcases hz : acc2.tz with _ | o
          · rw [hz] at hs; simp at hs
          · simp only [List.map_cons, List.flatten_cons, printDir, hz,
              printTz, List.cons_append, List.head?_cons] at hc
            injection hc with he
            subst he
            split <;> decide

/-! ## The round trip: printed output of a successful parse reparses -/

theorem parseDirs_cons_intro (d : Dir) (ds : List Dir) (s : PyStr)
    (acc acc1 : DateTime) (r1 : PyStr) (out : Option (DateTime × PyStr))
    (h1 : parseDir d s acc = some (acc1, r1))
    (h2 : parseDirs ds r1 acc1 = out) :
    parseDirs (d :: ds) s acc = out := by
  simp only [parseDirs, h1]
  exact h2

theorem parseDirs_nil_elim (s : PyStr) (acc acc2 : DateTime) (r : PyStr)
    (h : parseDirs [] s acc = some (acc2, r)) : acc2 = acc ∧ r = s := by
  simp only [parseDirs] at h
  injection h with h1
  cases h1
  exact ⟨rfl, rfl⟩

theorem dirsOK_cons (d : Dir) (ds : List Dir)
    (h : dirsOK (d :: ds) = true) :
    dirsOK ds = true ∧ ∀ d2, ds.head? = some d2 →
      (numericDir d = true → nonDigitStart d2 = true) ∧
      (d = .ws → nonWSStart d2 = true) := by
  cases ds with
  | nil => exact ⟨rfl, by intro d2 h2; simp at h2⟩
  | cons d2 t =>
      simp only [dirsOK, Bool.and_eq_true] at h
      refine ⟨h.2, ?_⟩
      intro d2b h2b
      injection h2b with he
      subst he
      constructor
      · intro hnum
        rw [if_pos hnum] at h
        exact h.1
      · intro hws
        subst hws
        rw [if_neg (by decide), if_pos rfl] at h
        exact h.1

theorem tzLastOK_cons (d : Dir) (ds : List Dir)
    (h : tzLastOK (d :: ds) = true) :
    (ds ≠ [] → d ≠ .tzdir) ∧ tzLastOK ds = true := by
  cases ds with
  | nil => exact ⟨fun h2 => absurd rfl h2, rfl⟩
  | cons d2 t =>
      simp only [tzLastOK, Bool.and_eq_true, decide_eq_true_eq] at h
      exact ⟨fun _ => h.1, h.2⟩

theorem notMem_of_nodup (d : Dir) (t0 : Nat) (ds : List Dir)
    (hf : fieldTag d = some t0)
    (hn : ((d :: ds).filterMap fieldTag).Nodup) : d ∉ ds := by
  intro hmem
  rw [List.filterMap_cons, hf] at hn
  exact (List.nodup_cons.mp hn).1 (List.mem_filterMap.mpr ⟨d, hmem, hf⟩)

theorem nodup_tail_fieldTag (d : Dir) (ds : List Dir)
    (hn : ((d :: ds).filterMap fieldTag).Nodup) :
    (ds.filterMap fieldTag).Nodup := by
  rw [List.filterMap_cons] at hn
  cases hf : fieldTag d with
  | none => rw [hf] at hn; exact hn
  | some t0 => rw [hf] at hn; exact hn.of_cons

theorem parseDirs_print_rt (dirs : List Dir) :
    ∀ (s : PyStr) (acc acc2 : DateTime) (r : PyStr),
    dirsOK dirs = true → (dirs.filterMap fieldTag).Nodup →
    tzLastOK dirs = true →
    parseDirs dirs s acc = some (acc2, r) →
    parseDirs dirs ((dirs.map (printDir acc2)).flatten) acc
      = some (acc2, []) := by
  induction dirs with
  | nil =>
      intro s acc acc2 r _ _ _ h
      obtain ⟨h1, h2⟩ := parseDirs_nil_elim s acc acc2 r h
      subst h1
      rfl
  | cons d ds ih =>
      intro s acc acc2 r hok hnd htzl h
      obtain ⟨acc1, r1, hd, hrest⟩ := parseDirs_cons_elim d ds s acc acc2 r h
      obtain ⟨hok2, hadj⟩ := dirsOK_cons d ds hok
      obtain ⟨htzne, htzl2⟩ := tzLastOK_cons d ds htzl
      have hnd2 := nodup_tail_fieldTag d ds hnd
      have htzmem : Dir.tzdir ∈ ds → acc2.tz.isSome = true :=
        fun hm => parseDirs_tz_some ds r1 acc1 acc2 r hrest (Or.inl hm)
      have hTnd : numericDir d = true →
          ∀ c, ((ds.map (printDir acc2)).flatten).head? = some c →
          isDig c = false := fun hdn c hc =>
        print_head_not_digit ds acc2
          (fun d0 h0 => (hadj d0 h0).1 hdn) htzmem c hc
      rw [List.map_cons, List.flatten_cons]
      cases d
      case year4 =>
          simp only [parseDir] at hd
          rcases Option.map_eq_some'.mp hd with ⟨p, hp, heq⟩
          cases heq
          have hb := parseYear4_bound _ _ _ hp
          have hnotin : Dir.year4 ∉ ds := notMem_of_nodup .year4 0 ds rfl hnd
          have hval : acc2.year = p.1 :=
            (parseDirs_fields ds p.2 _ acc2 r hrest).1 hnotin
          refine parseDirs_cons_intro _ _ _ _ _ _ _ ?_
            (ih p.2 _ acc2 r hok2 hnd2 htzl2 hrest)
          simp only [parseDir, printDir, hval]
          rw [parseYear4_print p.1 _ hb]
          rfl
      case mon2 =>
          simp only [parseDir] at hd
          rcases Option.map_eq_some'.mp hd with ⟨p, hp, heq⟩
          cases heq
          obtain ⟨hb1, hb2, hb3⟩ := parseNum2_bound 1 12 s p.1 p.2 (by omega) hp
          have hnotin : Dir.mon2 ∉ ds := notMem_of_nodup .mon2 1 ds rfl hnd
          have hval : acc2.month = p.1 :=
            (parseDirs_fields ds p.2 _ acc2 r hrest).2.1 hnotin
          refine parseDirs_cons_intro _ _ _ _ _ _ _ ?_
            (ih p.2 _ acc2 r hok2 hnd2 htzl2 hrest)
          simp only [parseDir, printDir, hval]
          rw [parseNum2_print 1 12 p.1 _ hb1 hb2 hb3 (hTnd rfl)]
          rfl
      case day2 =>
          simp only [parseDir] at hd
          rcases Option.map_eq_some'.mp hd with ⟨p, hp, heq⟩
          cases heq
          obtain ⟨hb1, hb2, hb3⟩ := parseNum2_bound 1 31 s p.1 p.2 (by omega) hp
          have hnotin : Dir.day2 ∉ ds := notMem_of_nodup .day2 2 ds rfl hnd
          have hval : acc2.day = p.1 :=
            (parseDirs_fields ds p.2 _ acc2 r hrest).2.2.1 hnotin
          refine parseDirs_cons_intro _ _ _ _ _ _ _ ?_
            (ih p.2 _ acc2 r hok2 hnd2 htzl2 hrest)
          simp only [parseDir, printDir, hval]
          rw [parseNum2_print 1 31 p.1 _ hb1 hb2 hb3 (hTnd rfl)]
          rfl
      case hour2 =>
          simp only [parseDir] at hd
          rcases Option.map_eq_some'.mp hd with ⟨p, hp, heq⟩
          cases heq
          obtain ⟨hb1, hb2, hb3⟩ := parseNum2_bound 0 23 s p.1 p.2 (by omega) hp
          have hnotin : Dir.hour2 ∉ ds := notMem_of_nodup .hour2 3 ds rfl hnd
          have hval : acc2.hour = p.1 :=
            (parseDirs_fields ds p.2 _ acc2 r hrest).2.2.2.1 hnotin
          refine parseDirs_cons_intro _ _ _ _ _ _ _ ?_
            (ih p.2 _ acc2 r hok2 hnd2 htzl2 hrest)
          simp only [parseDir, printDir, hval]
          rw [parseNum2_print 0 23 p.1 _ hb1 hb2 hb3 (hTnd rfl)]
          rfl
      case min2 =>
          simp only [parseDir] at hd
          rcases Option.map_eq_some'.mp hd with ⟨p, hp, heq⟩
          cases heq
          obtain ⟨hb1, hb2, hb3⟩ := parseNum2_bound 0 59 s p.1 p.2 (by omega) hp
          have hnotin : Dir.min2 ∉ ds := notMem_of_nodup .min2 4 ds rfl hnd
          have hval : acc2.minute = p.1 :=
            (parseDirs_fields ds p.2 _ acc2 r hrest).2.2.2.2.1 hnotin
          refine parseDirs_cons_intro _ _ _ _ _ _ _ ?_
            (ih p.2 _ acc2 r hok2 hnd2 htzl2 hrest)
          simp only [parseDir, printDir, hval]
          rw [parseNum2_print 0 59 p.1 _ hb1 hb2 hb3 (hTnd rfl)]
          rfl
      case sec2 =>
          simp only [parseDir] at hd
          rcases Option.map_eq_some'.mp hd with ⟨p, hp, heq⟩
          cases heq
          obtain ⟨hb1, hb2, hb3⟩ := parseNum2_bound 0 61 s p.1 p.2 (by omega) hp
          have hnotin : Dir.sec2 ∉ ds := notMem_of_nodup .sec2 5 ds rfl hnd
          have hval : acc2.second = p.1 :=
            (parseDirs_fields ds p.2 _ acc2 r hrest).2.2.2.2.2.1 hnotin
          refine parseDirs_cons_intro _ _ _ _ _ _ _ ?_
            (ih p.2 _ acc2 r hok2 hnd2 htzl2 hrest)
          simp only [parseDir, printDir, hval]
          rw [parseNum2_print 0 61 p.1 _ hb1 hb2 hb3 (hTnd rfl)]
          rfl
      case frac6 =>
          simp only [parseDir] at hd
          rcases Option.map_eq_some'.mp hd with ⟨p, hp, heq⟩
          cases heq
          have hb := parseFrac_bound s p.1 p.2 hp
          have hnotin : Dir.frac6 ∉ ds := notMem_of_nodup .frac6 6 ds rfl hnd
          have hval : acc2.usec = p.1 :=
            (parseDirs_fields ds p.2 _ acc2 r hrest).2.2.2.2.2.2.1 hnotin
          refine parseDirs_cons_intro _ _ _ _ _ _ _ ?_
            (ih p.2 _ acc2 r hok2 hnd2 htzl2 hrest)
          simp only [parseDir, printDir, hval]
          rw [parseFrac_print p.1 _ hb (hTnd rfl)]
          rfl
      case tzdir =>
          have hds : ds = [] := by
            by_contra hne
            exact (htzne hne) rfl
          subst hds
          obtain ⟨he1, he2⟩ := parseDirs_nil_elim r1 acc1 acc2 r hrest
          subst he1
          simp only [parseDir] at hd
          rcases Option.map_eq_some'.mp hd with ⟨p, hp, heq⟩
          cases heq
          have hb := parseTz_bound s p.1 p.2 hp
          refine parseDirs_cons_intro _ _ _ _ _ _ _ ?_ rfl
          have hpr : printDir { acc with tz := some p.1 } Dir.tzdir
              = printTz p.1 := rfl
          rw [hpr]
          simp only [List.map_nil, List.flatten_nil, List.append_nil]
          simp only [parseDir]
          rw [parseTz_print p.1 hb]
          rfl
      case ws =>
          rcases s with _ | ⟨c0, r0⟩
          · exact absurd hd (by simp [parseDir])
          · simp only [parseDir] at hd
            split at hd
            case isTrue hw =>
              injection hd with h1
              cases h1
              refine parseDirs_cons_intro _ _ _ _ _ _ _ ?_
                (ih _ _ acc2 r hok2 hnd2 htzl2 hrest)
              have hTnw : ∀ c, ((ds.map (printDir acc2)).flatten).head?
                  = some c → wsC c = false := by
                intro c hc
                exact print_head_not_ws ds acc2
                  (fun d0 h0 => (hadj d0 h0).2 rfl) htzmem c hc
              show parseDir .ws (' ' :: (ds.map (printDir acc2)).flatten) acc
                  = some (acc, (ds.map (printDir acc2)).flatten)
              simp only [parseDir]
              rw [if_pos (by decide : wsC ' ' = true),
                dropWhile_eq_self_of_head? _ hTnw]
            case isFalse => exact absurd hd (by simp)
      case lit c0 =>
          rcases s with _ | ⟨c1, r0⟩
          · exact absurd hd (by simp [parseDir])
          · simp only [parseDir] at hd
            split at hd
            case isTrue hw =>
              injection hd with h1
              cases h1
              refine parseDirs_cons_intro _ _ _ _ _ _ _ ?_
                (ih _ _ acc2 r hok2 hnd2 htzl2 hrest)
              show parseDir (.lit c0) (c0 :: (ds.map (printDir acc2)).flatten)
                  acc = some (acc, (ds.map (printDir acc2)).flatten)
              simp only [parseDir]
              rw [if_pos (by simp [charMatch] : charMatch c0 c0 = true)]
            case isFalse => exact absurd hd (by simp)

theorem strptime_print_rt (fmt : List Dir) (hok : fmtOK fmt = true)
    (s : PyStr) (dt : DateTime) (h : strptime fmt s = some dt) :
    strptime fmt (strftime fmt dt) = some dt := by
  simp only [fmtOK, Bool.and_eq_true, decide_eq_true_eq] at hok
  obtain ⟨⟨hok1, hok2⟩, hok3⟩ := hok
  unfold strptime at h ⊢
  split at h
  case h_1 dt0 heq =>
    split at h
    case isTrue hv =>
      injection h with he
      subst he
      have hrt := parseDirs_print_rt fmt s initDT dt0 [] hok1 hok2 hok3 heq
      simp only [strftime]
      rw [hrt]
      simp [hv]
    case isFalse => exact absurd h (by simp)
  case h_2 => exact absurd h (by simp)

/-! ## Segment decomposition of a successful parse -/

theorem parseNum2_seg (minv maxv : Nat) (s : PyStr) (v : Nat) (r : PyStr)
    (h : parseNum2 minv maxv s = some (v, r)) :
    ∃ t, s = t ++ r ∧ 1 ≤ t.length ∧ ∀ c ∈ t, isDig c = true := by
  unfold parseNum2 at h
  have hsplit := List.takeWhile_append_dropWhile isDig s
  split at h
  case h_1 c heq =>
    split at h
    · injection h with h1
      injection h1 with hv hr
      refine ⟨s.takeWhile isDig, ?_, ?_, fun c hc => List.mem_takeWhile_imp hc⟩
      · rw [← hr]; exact hsplit.symm
      · rw [heq]; simp
    · exact absurd h (by simp)
  case h_2 c1 c2 heq =>
    split at h
    · injection h with h1
      injection h1 with hv hr
      refine ⟨s.takeWhile isDig, ?_, ?_, fun c hc => List.mem_takeWhile_imp hc⟩
      · rw [← hr]; exact hsplit.symm
      · rw [heq]; simp
    · exact absurd h (by simp)
  case h_3 => exact absurd h (by simp)

theorem parseFrac_seg (s : PyStr) (v : Nat) (r : PyStr)
    (h : parseFrac s = some (v, r)) :
    ∃ t, s = t ++ r ∧ 1 ≤ t.length ∧ ∀ c ∈ t, isDig c = true := by
  unfold parseFrac at h
  have hsplit := List.takeWhile_append_dropWhile isDig s
  split at h
  case isTrue hc =>
    injection h with h1
    injection h1 with hv hr
    refine ⟨s.takeWhile isDig, ?_, hc.1, fun c hcm => List.mem_takeWhile_imp hcm⟩
    rw [← hr]; exact hsplit.symm
  case isFalse => exact absurd h (by simp)

theorem parseYear4_seg (s : PyStr) (v : Nat) (r : PyStr)
    (h : parseYear4 s = some (v, r)) :
    ∃ t, s = t ++ r ∧ 4 ≤ t.length ∧ ∀ c ∈ t, isDig c = true := by
  unfold parseYear4 at h
  split at h
  case h_1 c1 c2 c3 c4 t0 =>
    split at h
    case isTrue hc =>
      injection h with h1
      injection h1 with hv hr
      simp only [Bool.and_eq_true] at hc
      refine ⟨[c1, c2, c3, c4], by rw [hr]; rfl, by simp, ?_⟩
      intro c hcm
      simp only [List.mem_cons, List.not_mem_nil, or_false] at hcm
      rcases hcm with rfl | rfl | rfl | rfl
      · exact hc.1.1.1
      · exact hc.1.1.2
      · exact hc.1.2
      · exact hc.2
    case isFalse => exact absurd h (by simp)
  case h_2 => exact absurd h (by simp)

theorem tzAllowed_digit {c : Char} (h : isDig c = true) :
    allowedFor .tzdir c = true := by
  simp [allowedFor, h]

theorem parseTzSecCore_seg (u : PyStr) (e : Nat) (r3 : PyStr)
    (h : parseTzSecCore u = some (e, r3)) :
    ∃ t, u = t ++ r3 ∧ ∀ c ∈ t, allowedFor .tzdir c = true := by
  unfold parseTzSecCore at h
  cases hq : parseTwoDig u with
  | none => rw [hq] at h; exact absurd h (by simp)
  | some q =>
      rw [hq, Option.some_bind] at h
      obtain ⟨hq99, a, b, hu, ha, hb⟩ := parseTwoDig_shape u q.1 q.2 hq
      split at h
      case isTrue hdot =>
        split at h
        case h_1 p2 heqf =>
          injection h with h1
          injection h1 with hv hr
          obtain ⟨tf, htf, htl, htd⟩ := parseFrac_seg _ _ _ heqf
          rcases hq2 : q.2 with _ | ⟨cd, qt⟩
          · rw [hq2] at hdot; simp at hdot
          · rw [hq2] at hdot
            simp only [List.head?_cons] at hdot
            injection hdot with hcd
            subst hcd
            rw [hq2] at hu htf
            simp only [List.tail_cons] at htf
            subst hr
            refine ⟨[a, b, '.'] ++ tf, ?_, ?_⟩
            · rw [hu, htf]
              simp
            · intro c hcm
              simp only [List.mem_append, List.mem_cons,
                List.not_mem_nil, or_false] at hcm
              rcases hcm with (rfl | rfl | rfl) | hcm
              · exact tzAllowed_digit ha
              · exact tzAllowed_digit hb
              · simp [allowedFor]
              · exact tzAllowed_digit (htd c hcm)
        case h_2 heqf =>
          injection h with h1
          injection h1 with hv hr
          subst hr
          refine ⟨[a, b], ?_, ?_⟩
          · rw [hu]; rfl
          · intro c hcm
            simp only [List.mem_cons, List.not_mem_nil, or_false] at hcm
            rcases hcm with rfl | rfl
            · exact tzAllowed_digit ha
            · exact tzAllowed_digit hb
      case isFalse =>
        injection h with h1
        injection h1 with hv hr
        subst hr
        refine ⟨[a, b], ?_, ?_⟩
        · rw [hu]; rfl
        · intro c hcm
          simp only [List.mem_cons, List.not_mem_nil, or_false] at hcm
          rcases hcm with rfl | rfl
          · exact tzAllowed_digit ha
          · exact tzAllowed_digit hb

theorem parseTzSecFrac_seg (u : PyStr) :
    ∃ t, u = t ++ (parseTzSecFrac u).2 ∧
      ∀ c ∈ t, allowedFor .tzdir c = true := by
  unfold parseTzSecFrac
  split
  case isTrue hcol =>
    rcases u with _ | ⟨cu, ut⟩
    · simp at hcol
    · simp only [List.head?_cons] at hcol
      injection hcol with hcu
      subst hcu
      simp only [List.tail_cons]
      cases hc : parseTzSecCore ut with
      | none => exact ⟨[], rfl, by simp⟩
      | some p =>
          obtain ⟨t, ht, hall⟩ := parseTzSecCore_seg ut p.1 p.2 hc
          refine ⟨':' :: t, ?_, ?_⟩
          · simp only [List.cons_append]
            rw [← ht]
          · intro c hcm
            rcases List.mem_cons.mp hcm with rfl | hcm2
            · simp [allowedFor]
            · exact hall c hcm2
  case isFalse hcol =>
    cases hc : parseTzSecCore u with
    | none => exact ⟨[], rfl, by simp⟩
    | some p =>
        obtain ⟨t, ht, hall⟩ := parseTzSecCore_seg u p.1 p.2 hc
        exact ⟨t, ht, hall⟩

theorem parseTz_seg (s : PyStr) (o : Int) (r : PyStr)
    (h : parseTz s = some (o, r)) :
    ∃ t, s = t ++ r ∧ 1 ≤ t.length ∧ ∀ c ∈ t, allowedFor .tzdir c = true := by
  rcases s with _ | ⟨c, r0⟩
  · exact absurd h (by simp [parseTz])
  · simp only [parseTz] at h
    split at h
    case isTrue hz =>
      injection h with h1
      injection h1 with ho hr
      subst hz
      refine ⟨['Z'], by rw [hr]; rfl, by simp, ?_⟩
      intro c hcm
      simp only [List.mem_singleton] at hcm
      subst hcm
      simp [allowedFor]
    case isFalse hz =>
      split at h
      case isTrue hsgn =>
        cases hq : parseTwoDig r0 with
        | none => rw [hq] at h; exact absurd h (by simp)
        | some q =>
            rw [hq, Option.some_bind] at h
            unfold parseTzAfterHH at h
            obtain ⟨hq99, a, b, hr0, ha, hb⟩ := parseTwoDig_shape r0 q.1 q.2 hq
            split at h
            case isTrue hcolon =>
              rcases hq2s : q.2 with _ | ⟨cq, qt⟩
              · rw [hq2s] at hcolon; simp at hcolon
              · rw [hq2s] at hcolon
                obtain ⟨hhead, _⟩ := hcolon
                simp only [List.head?_cons] at hhead
                injection hhead with hcq
                subst hcq
                rw [hq2s] at hr0 h
                simp only [List.tail_cons] at h
                cases hq2 : parseTwoDig qt with
                | none => rw [hq2] at h; exact absurd h (by simp)
                | some q2 =>
                    rw [hq2, Option.some_bind] at h
                    obtain ⟨hq299, a2, b2, hqt, ha2, hb2⟩ :=
                      parseTwoDig_shape qt q2.1 q2.2 hq2
                    obtain ⟨t3, ht3, hall3⟩ := parseTzSecFrac_seg q2.2
                    unfold parseTzFinish at h
                    split at h
                    case isTrue =>
                      injection h with h1
                      injection h1 with ho hr
                      refine ⟨c :: a :: b :: ':' :: a2 :: b2 :: t3, ?_, by simp, ?_⟩
                      · rw [hr0, hqt, ht3, ← hr]
                        simp
                      · intro x hx
                        simp only [List.mem_cons] at hx
                        rcases hx with rfl | rfl | rfl | rfl | rfl | rfl | hx2
                        · rcases hsgn with rfl | rfl <;> simp [allowedFor]
                        · exact tzAllowed_digit ha
                        · exact tzAllowed_digit hb
                        · simp [allowedFor]
                        · exact tzAllowed_digit ha2
                        · exact tzAllowed_digit hb2
                        · exact hall3 x hx2
                    case isFalse => exact absurd h (by simp)
            case isFalse hcolon =>
              cases hq2 : parseTwoDig q.2 with
              | none => rw [hq2] at h; exact absurd h (by simp)
              | some q2 =>
                  rw [hq2, Option.some_bind] at h
                  obtain ⟨hq299, a2, b2, hqt, ha2, hb2⟩ :=
                    parseTwoDig_shape q.2 q2.1 q2.2 hq2
                  obtain ⟨t3, ht3, hall3⟩ := parseTzSecFrac_seg q2.2
                  unfold parseTzFinish at h
                  split at h
                  case isTrue =>
                    injection h with h1
                    injection h1 with ho hr
                    refine ⟨c :: a :: b :: a2 :: b2 :: t3, ?_, by simp, ?_⟩
                    · rw [hr0, hqt, ht3, ← hr]
                      simp
                    · intro x hx
                      simp only [List.mem_cons] at hx
                      rcases hx with rfl | rfl | rfl | rfl | rfl | hx2
                      · rcases hsgn with rfl | rfl <;> simp [allowedFor]
                      · exact tzAllowed_digit ha
                      · exact tzAllowed_digit hb
                      · exact tzAllowed_digit ha2
                      · exact tzAllowed_digit hb2
                      · exact hall3 x hx2
                  case isFalse => exact absurd h (by simp)
      case isFalse => exact absurd h (by simp)

theorem parseDir_seg (d : Dir) (s : PyStr) (acc acc1 : DateTime) (r : PyStr)
    (h : parseDir d s acc = some (acc1, r)) :
    ∃ t, s = t ++ r ∧ minConsume d ≤ t.length ∧
      ∀ c ∈ t, allowedFor d c = true := by
  cases d
  case year4 =>
      simp only [parseDir] at h
      rcases Option.map_eq_some'.mp h with ⟨p, hp, heq⟩
      cases heq
      exact parseYear4_seg s p.1 p.2 hp
  case mon2 =>
      simp only [parseDir] at h
      rcases Option.map_eq_some'.mp h with ⟨p, hp, heq⟩
      cases heq
      exact parseNum2_seg 1 12 s p.1 p.2 hp
  case day2 =>
      simp only [parseDir] at h
      rcases Option.map_eq_some'.mp h with ⟨p, hp, heq⟩
      cases heq
      exact parseNum2_seg 1 31 s p.1 p.2 hp
  case hour2 =>
      simp only [parseDir] at h
      rcases Option.map_eq_some'.mp h with ⟨p, hp, heq⟩
      cases heq
      exact parseNum2_seg 0 23 s p.1 p.2 hp
  case min2 =>
      simp only [parseDir] at h
      rcases Option.map_eq_some'.mp h with ⟨p, hp, heq⟩
      cases heq
      exact parseNum2_seg 0 59 s p.1 p.2 hp
  case sec2 =>
      simp only [parseDir] at h
      rcases Option.map_eq_some'.mp h with ⟨p, hp, heq⟩
      cases heq
      exact parseNum2_seg 0 61 s p.1 p.2 hp
  case frac6 =>
      simp only [parseDir] at h
      rcases Option.map_eq_some'.mp h with ⟨p, hp, heq⟩
      cases heq
      exact parseFrac_seg s p.1 p.2 hp
  case tzdir =>
      simp only [parseDir] at h
      rcases Option.map_eq_some'.mp h with ⟨p, hp, heq⟩
      cases heq
      exact parseTz_seg s p.1 p.2 hp
  case ws =>
      rcases s with _ | ⟨c0, r0⟩
      · exact absurd h (by simp [parseDir])
      · simp only [parseDir] at h
        split at h
        case isTrue hw =>
          injection h with h1
          cases h1
          refine ⟨c0 :: r0.takeWhile wsC, ?_, by simp [minConsume], ?_⟩
          · simp only [List.cons_append, List.takeWhile_append_dropWhile]
          · intro c hc
            rcases List.mem_cons.mp hc with rfl | hc2
            · exact hw
            · exact List.mem_takeWhile_imp hc2
        case isFalse => exact absurd h (by simp)
  case lit c0 =>
      rcases s with _ | ⟨c1, r0⟩
      · exact absurd h (by simp [parseDir])
      · simp only [parseDir] at h
        split at h
        case isTrue hw =>
          injection h with h1
          cases h1
          refine ⟨[c1], rfl, by simp [minConsume], ?_⟩
          intro c hc
          simp only [List.mem_singleton] at hc
          subst hc
          exact hw
        case isFalse => exact absurd h (by simp)

theorem minConsume_pos (d : Dir) : 1 ≤ minConsume d := by
  cases d <;> simp [minConsume]

theorem minLen_pos (ds : List Dir) (h : ds ≠ []) : 1 ≤ minLen ds := by
  cases ds with
  | nil => exact absurd rfl h
  | cons d t =>
      simp only [minLen, List.map_cons, List.sum_cons]
      have := minConsume_pos d
      omega

theorem parseDirs_seg (dirs : List Dir) :
    ∀ (s : PyStr) (acc acc2 : DateTime) (r : PyStr),
    parseDirs dirs s acc = some (acc2, r) →
    ∃ t, s = t ++ r ∧ minLen dirs ≤ t.length ∧
      ∀ c ∈ t, ∃ d ∈ dirs, allowedFor d c = true := by
  induction dirs with
  | nil =>
      intro s acc acc2 r h
      obtain ⟨h1, h2⟩ := parseDirs_nil_elim s acc acc2 r h
      subst h2
      exact ⟨[], rfl, by simp [minLen], by simp⟩
  | cons d ds ih =>
      intro s acc acc2 r h
      obtain ⟨acc1, r1, hd, hrest⟩ := parseDirs_cons_elim d ds s acc acc2 r h
      obtain ⟨t1, ht1, hl1, hc1⟩ := parseDir_seg d s acc acc1 r1 hd
      obtain ⟨t2, ht2, hl2, hc2⟩ := ih r1 acc1 acc2 r hrest
      refine ⟨t1 ++ t2, ?_, ?_, ?_⟩
      · rw [ht1, ht2, List.append_assoc]
      · simp only [minLen, List.map_cons, List.sum_cons, List.length_append]
        have h2 : minLen ds ≤ t2.length := hl2
        simp only [minLen] at h2
        omega
      · intro c hc
        rcases List.mem_append.mp hc with hm | hm
        · exact ⟨d, by simp, hc1 c hm⟩
        · obtain ⟨d2, hd2, ha2⟩ := hc2 c hm
          exact ⟨d2, by simp [hd2], ha2⟩

theorem parseDirs_last_char (dirs : List Dir) :
    ∀ (s : PyStr) (acc acc2 : DateTime),
    parseDirs dirs s acc = some (acc2, []) → dirs ≠ [] →
    ∀ c, s.getLast? = some c →
      ∃ d, dirs.getLast? = some d ∧ allowedFor d c = true := by
  induction dirs with
  | nil => intro s acc acc2 _ hne; exact absurd rfl hne
  | cons d ds ih =>
      intro s acc acc2 h _ c hlast
      obtain ⟨acc1, r1, hd, hrest⟩ := parseDirs_cons_elim d ds s acc acc2 [] h
      rcases hds : ds with _ | ⟨d2, t2⟩
      · subst hds
        obtain ⟨he1, he2⟩ := parseDirs_nil_elim r1 acc1 acc2 [] hrest
        subst he2
        obtain ⟨t1, ht1, hl1, hc1⟩ := parseDir_seg d s acc acc1 [] hd
        have hcm : c ∈ s := List.mem_of_mem_getLast? (by rw [hlast]; rfl)
        rw [ht1, List.append_nil] at hcm
        exact ⟨d, rfl, hc1 c hcm⟩
      · obtain ⟨t1, ht1, _, _⟩ := parseDir_seg d s acc acc1 r1 hd
        obtain ⟨t2s, ht2, hl2, _⟩ := parseDirs_seg ds r1 acc1 acc2 [] hrest
        have hr1ne : r1 ≠ [] := by
          rw [ht2, List.append_nil]
          intro he
          have hmp := minLen_pos ds (by simp [hds])
          rw [he] at hl2
          simp at hl2
          omega
        have hlast2 : r1.getLast? = some c := by
          rw [ht1] at hlast
          rw [← List.getLast?_append_of_ne_nil t1 hr1ne]
          exact hlast
        obtain ⟨dl, hdl, hal⟩ := ih r1 acc1 acc2 hrest
          (by simp [hds]) c hlast2
        refine ⟨dl, ?_, hal⟩
        rw [List.getLast?_cons_cons]
        rw [hds] at hdl
        exact hdl

theorem parseDirs_first_digit (rest : List Dir) (s : PyStr)
    (acc acc2 : DateTime) (r : PyStr)
    (h : parseDirs (Dir.year4 :: rest) s acc = some (acc2, r)) :
    ∀ c, s.head? = some c → isDig c = true := by
  obtain ⟨acc1, r1, hd, _⟩ := parseDirs_cons_elim _ _ s acc acc2 r h
  simp only [parseDir] at hd
  rcases Option.map_eq_some'.mp hd with ⟨p, hp, _⟩
  obtain ⟨t, ht, hl, hdg⟩ := parseYear4_seg s p.1 p.2 hp
  intro c hc
  rcases t with _ | ⟨a, tt⟩
  · simp at hl
  · rw [ht] at hc
    simp only [List.cons_append, List.head?_cons] at hc
    injection hc with he
    rw [← he]
    exact hdg a (by simp)

/-! ## Normalization is inert on format-matched strings -/

theorem stripList_eq_self (s : PyStr)
    (h1 : ∀ c, s.head? = some c → wsC c = false)
    (h2 : ∀ c, s.getLast? = some c → wsC c = false) : stripList s = s := by
  unfold stripList
  rw [dropWhile_eq_self_of_head? s h1]
  have hrev : ∀ c, s.reverse.head? = some c → wsC c = false := by
    intro c hc
    rw [List.head?_reverse] at hc
    exact h2 c hc
  rw [dropWhile_eq_self_of_head? s.reverse hrev, List.reverse_reverse]

theorem replaceComma_eq_self (s : PyStr) (h : ∀ c ∈ s, c ≠ ',') :
    replaceComma s = s := by
  induction s with
  | nil => rfl
  | cons a t ih =>
      have ht : replaceComma t = t :=
        ih (fun c hc => h c (List.mem_cons_of_mem a hc))
      show (if a = ',' then ' ' else a) :: replaceComma t = a :: t
      rw [if_neg (h a (List.mem_cons_self a t)), ht]

theorem findSome_mem {α β : Type} (l : List α) (f : α → Option β) (y : β)
    (h : l.findSome? f = some y) : ∃ x ∈ l, f x = some y := by
  induction l with
  | nil => simp [List.findSome?_nil] at h
  | cons a t ih =>
      rw [List.findSome?_cons] at h
      split at h
      case h_1 b heq =>
        injection h with hh
        subst hh
        exact ⟨a, by simp, heq⟩
      case h_2 heq =>
        obtain ⟨x, hx, hfx⟩ := ih h
        exact ⟨x, by simp [hx], hfx⟩

theorem findSome_isSome {α β : Type} (l : List α) (f : α → Option β)
    (x : α) (y : β) (hx : x ∈ l) (h : f x = some y) :
    (l.findSome? f).isSome = true := by
  induction l with
  | nil => simp at hx
  | cons a t ih =>
      rw [List.findSome?_cons]
      split
      · simp
      case h_2 heq =>
        rcases List.mem_cons.mp hx with rfl | hx2
        · exact absurd heq (by simp [h])
        · exact ih hx2

theorem strptime_elim (fmt : List Dir) (s : PyStr) (dt : DateTime)
    (h : strptime fmt s = some dt) :
    parseDirs fmt s initDT = some (dt, []) ∧ validDT dt = true := by
  unfold strptime at h
  split at h
  case h_1 dt0 heq =>
    split at h
    case isTrue hv =>
      injection h with he
      subst he
      exact ⟨heq, hv⟩
    case isFalse => exact absurd h (by simp)
  case h_2 => exact absurd h (by simp)

theorem lastdir_char_not_ws (d : Dir) (c : Char)
    (hd : d = Dir.day2 ∨ d = Dir.sec2 ∨ d = Dir.frac6 ∨ d = Dir.tzdir)
    (h : allowedFor d c = true) : wsC c = false := by
  rcases hd with rfl | rfl | rfl | rfl
  · exact isDig_not_ws c h
  · exact isDig_not_ws c h
  · exact isDig_not_ws c h
  · simp only [allowedFor, Bool.or_eq_true, decide_eq_true_eq] at h
    rcases h with ((((hh | rfl) | rfl) | rfl) | rfl) | rfl
    · exact isDig_not_ws c hh
    · decide
    · decide
    · decide
    · decide
    · decide

/-- C7: every string matched by one of the explicit formats makes
parse_date succeed through the explicit-format loop, and the format
that produced the result round-trips: printing the returned datetime
with it and re-parsing yields the same datetime. -/
theorem c7_parse_date_explicit_roundtrip :
    ∀ (fuzzy : PyStr → Option DateTime) (s : PyStr) (fmt : List Dir)
      (dt : DateTime),
      fmt ∈ EXPLICIT_FORMATS → strptime fmt s = some dt →
      ∃ fmt2 dt2, fmt2 ∈ EXPLICIT_FORMATS ∧
        parse_date fuzzy (.str s) = some dt2 ∧
        strptime fmt2 s = some dt2 ∧
        strptime fmt2 (strftime fmt2 dt2) = some dt2 := by
  intro fuzzy s fmt dt hmem hp
  obtain ⟨hpd, hv⟩ := strptime_elim fmt s dt hp
  obtain ⟨t, hts, hlen, hchars⟩ := parseDirs_seg fmt s initDT dt [] hpd
  rw [List.append_nil] at hts
  have hlen2 : minLen fmt ≤ s.length := by rw [hts]; exact hlen
  have hchars2 : ∀ c ∈ s, ∃ d ∈ fmt, allowedFor d c = true := by
    rw [hts]; exact hchars
  have hlen8 : 8 ≤ s.length := by
    have hall : ∀ f ∈ EXPLICIT_FORMATS, 8 ≤ minLen f := by decide
    exact le_trans (hall fmt hmem) hlen2
  have hs0 : s ≠ [] := by
    intro he
    rw [he] at hlen8
    simp at hlen8
  have hnocomma : ∀ c ∈ s, c ≠ ',' := by
    intro c hc he
    subst he
    obtain ⟨d0, hd0mem, hall0⟩ := hchars2 ',' hc
    have hnc : ∀ f ∈ EXPLICIT_FORMATS, ∀ d0 ∈ f,
        allowedFor d0 ',' = false := by decide
    rw [hnc fmt hmem d0 hd0mem] at hall0
    exact absurd hall0 (by simp)
  have hhead : ∀ c, s.head? = some c → wsC c = false := by
    intro c hc
    have hy : fmt.head? = some Dir.year4 := by
      have hall : ∀ f ∈ EXPLICIT_FORMATS, f.head? = some Dir.year4 := by decide
      exact hall fmt hmem
    rcases fmt with _ | ⟨d0, rest⟩
    · simp at hy
    · injection hy with hy2
      subst hy2
      exact isDig_not_ws c (parseDirs_first_digit rest s initDT dt [] hpd c hc)
  have hlast : ∀ c, s.getLast? = some c → wsC c = false := by
    intro c hc
    have hne : fmt ≠ [] := by
      have hall : ∀ f ∈ EXPLICIT_FORMATS, f ≠ [] := by decide
      exact hall fmt hmem
    obtain ⟨dl, hdl, hal⟩ := parseDirs_last_char fmt s initDT dt hpd hne c hc
    have hld : ∀ f ∈ EXPLICIT_FORMATS,
        f.getLast? = some Dir.day2 ∨ f.getLast? = some Dir.sec2 ∨
        f.getLast? = some Dir.frac6 ∨ f.getLast? = some Dir.tzdir := by decide
    have hcase := hld fmt hmem
    have hdlcase : dl = Dir.day2 ∨ dl = Dir.sec2 ∨ dl = Dir.frac6 ∨
        dl = Dir.tzdir := by
      rcases hcase with hcc | hcc | hcc | hcc
      · rw [hdl] at hcc; injection hcc with h2; exact Or.inl h2
      · rw [hdl] at hcc; injection hcc with h2; exact Or.inr (Or.inl h2)
      · rw [hdl] at hcc; injection hcc with h2
        exact Or.inr (Or.inr (Or.inl h2))
      · rw [hdl] at hcc; injection hcc with h2
        exact Or.inr (Or.inr (Or.inr h2))
    exact lastdir_char_not_ws dl c hdlcase hal
  have hstrip := stripList_eq_self s hhead hlast
  have hsmall : isSmallNumeric s = false := by
    unfold isSmallNumeric
    have hn6 : ¬ (s.length ≤ 6) := by omega
    simp [hn6]
  have hrepl := replaceComma_eq_self s hnocomma
  have hiss : (firstFormatParse s).isSome = true :=
    findSome_isSome EXPLICIT_FORMATS (fun f => strptime f s) fmt dt hmem hp
  obtain ⟨dt2, hdt2⟩ := Option.isSome_iff_exists.mp hiss
  obtain ⟨fmt2, hmem2, hp2⟩ := findSome_mem EXPLICIT_FORMATS _ dt2 hdt2
  have hpd2 : parse_date fuzzy (.str s) = some dt2 := by
    simp [parse_date, hs0, hstrip, hsmall, hrepl, hdt2]
  have hok2 : fmtOK fmt2 = true := by
    have hall : ∀ f ∈ EXPLICIT_FORMATS, fmtOK f = true := by decide
    exact hall fmt2 hmem2
  exact ⟨fmt2, dt2, hmem2, hpd2, hp2, strptime_print_rt fmt2 hok2 s dt2 hp2⟩

/-- Witness for C7 on a concrete colon-date string. -/
theorem c7_witness :
    ∃ fmt2 dt2, fmt2 ∈ EXPLICIT_FORMATS ∧
      parse_date fuzzy0 (.str (pystr "2020:01:02")) = some dt2 ∧
      strptime fmt2 (pystr "2020:01:02") = some dt2 ∧
      strptime fmt2 (strftime fmt2 dt2) = some dt2 :=
  c7_parse_date_explicit_roundtrip fuzzy0 (pystr "2020:01:02") fmtA
    { year := 2020, month := 1, day := 2, hour := 0, minute := 0,
      second := 0, usec := 0, tz := none }
    (by decide) (by decide)

end Datefixer
